import Mathlib

/-
  Verification of the asset-localization scripts `framer_localize.py` and
  `mirror_framer.py`.  Python strings are modelled as `List Char`; Python
  `str.replace` is modelled by `pyReplace` (leftmost, non-overlapping,
  scanning resumes after each replacement, matching CPython semantics).
-/

namespace Spec2Proof

set_option maxRecDepth 100000

abbrev Str := List Char

/-- Index of the first occurrence of `needle` in `hay` (CPython `str.find`). -/
def findSub (needle : Str) : Str → Option Nat
  | [] => if needle = [] then some 0 else none
  | c :: t =>
    if needle.isPrefixOf (c :: t) then some 0
    else
      match findSub needle t with
      | some i => some (i + 1)
      | none => none

/-- Does `needle` occur as a contiguous substring of `hay`? -/
def occursIn (needle hay : Str) : Bool := (findSub needle hay).isSome

/-- Python `s.replace("", new)` inserts `new` at every seam incl. the ends. -/
def pyReplaceEmptyPad (new : Str) : Str → Str
  | [] => new
  | c :: t => new ++ c :: pyReplaceEmptyPad new t

/-- Fueled worker for `pyReplace`; `fuel ≥ s.length` makes it total. -/
def pyReplaceFuel (old new : Str) : Nat → Str → Str
  | 0, s => s
  | fuel + 1, s =>
    match findSub old s with
    | none => s
    | some i => s.take i ++ new ++ pyReplaceFuel old new fuel (s.drop (i + old.length))

/-- CPython `s.replace(old, new)`: replace each leftmost non-overlapping
occurrence of `old` by `new`, resuming the scan after the replacement. -/
def pyReplace (old new s : Str) : Str :=
  if old = [] then pyReplaceEmptyPad new s
  else pyReplaceFuel old new s.length s

/-- Embeds `framer_localize.replace_all`: fold `str.replace` over the mapping
in its (insertion) order. -/
def replace_all (text : Str) (mapping : List (Str × Str)) : Str :=
  mapping.foldl (fun t p => pyReplace p.1 p.2 t) text

/-- One step of a stable insertion sort by key length, descending: `p` is
placed before the first entry whose key is not longer than its own, so on
equal lengths the earlier entry stays first. -/
def insertByLen (p : Str × Str) : List (Str × Str) → List (Str × Str)
  | [] => [p]
  | q :: t => if q.1.length ≤ p.1.length then p :: q :: t else q :: insertByLen p t

/-- Stable sort of the mapping by non-increasing key length; models CPython
`sorted(mapping.items(), key=lambda x: -len(x[0]))` (a stable sort). -/
def sortByKeyLenDesc (l : List (Str × Str)) : List (Str × Str) :=
  l.foldr insertByLen []

/-- Embeds `mirror_framer.rewrite_in_text`: like `replace_all` but the
mapping is first sorted by decreasing key length. -/
def rewrite_in_text (text : Str) (mapping : List (Str × Str)) : Str :=
  replace_all text (sortByKeyLenDesc mapping)

-- ## URL parsing (urllib.parse.urlsplit, the fields the scripts use)

structure UrlParts where
  scheme : Str
  netloc : Str
  path : Str
  query : Str
  fragment : Str
deriving Repr, DecidableEq

def lowerStr (s : Str) : Str := s.map Char.toLower

def isSchemeChar (c : Char) : Bool := c.isAlphanum || c = '+' || c = '-' || c = '.'

def firstIsAlpha (s : Str) : Bool :=
  match s with
  | [] => false
  | c :: _ => c.isAlpha

/-- CPython `urlsplit` scheme split: a valid scheme before the first colon is
peeled off and lower-cased. -/
def splitScheme (u : Str) : Str × Str :=
  match findSub [':'] u with
  | none => ([], u)
  | some i =>
    if 0 < i && (u.take i).all isSchemeChar && firstIsAlpha u then
      (lowerStr (u.take i), u.drop (i + 1))
    else ([], u)

def isNetlocEnd (c : Char) : Bool := c = '/' || c = '?' || c = '#'

/-- CPython `urlsplit` netloc split: after a leading `//`, the netloc runs to
the first `/`, `?` or `#`. -/
def splitNetloc (u : Str) : Str × Str :=
  match u with
  | '/' :: '/' :: rest =>
    (rest.takeWhile (fun c => !(isNetlocEnd c)), rest.dropWhile (fun c => !(isNetlocEnd c)))
  | _ => ([], u)

/-- Split at the first occurrence of a character; the separator is dropped.
Absent separator leaves the whole input on the left and `[]` on the right. -/
def splitOnceAt (c : Char) (u : Str) : Str × Str :=
  match findSub [c] u with
  | none => (u, [])
  | some i => (u.take i, u.drop (i + 1))

/-- Embeds `urllib.parse.urlsplit`: scheme, then netloc, then the fragment is
split off at the first `#`, then the query at the first `?`. -/
def urlsplit (u : Str) : UrlParts :=
  let sc := splitScheme u
  let nl := splitNetloc sc.2
  let fr := splitOnceAt '#' nl.2
  let qr := splitOnceAt '?' fr.1
  { scheme := sc.1, netloc := nl.1, path := qr.1, query := qr.2, fragment := fr.2 }

-- ## Path helpers (os.path / pathlib, POSIX flavour)

/-- `os.path.basename`: the part after the last slash. -/
def osBasename (p : Str) : Str :=
  (p.reverse.takeWhile (fun c => !(c = '/'))).reverse

/-- Index of the last occurrence of a character (`str.rfind`). -/
def rfindChar (c : Char) (p : Str) : Option Nat :=
  match findSub [c] p.reverse with
  | none => none
  | some i => some (p.length - 1 - i)

/-- `os.path.splitext`: split at the last dot of the final component unless
every character between the last slash and that dot is itself a dot. -/
def splitext (p : Str) : Str × Str :=
  let sepIdx : Int := match rfindChar '/' p with | none => -1 | some i => (i : Int)
  let dotIdx : Int := match rfindChar '.' p with | none => -1 | some i => (i : Int)
  if sepIdx < dotIdx ∧
      (((p.drop ((sepIdx + 1).toNat)).take ((dotIdx - sepIdx - 1).toNat)).any
        (fun c => !(c = '.'))) then
    (p.take dotIdx.toNat, p.drop dotIdx.toNat)
  else (p, [])

/-- `pathlib.PurePosixPath(p).name`: last path component after dropping empty
and single-dot segments. -/
def pathlibName (p : Str) : Str :=
  let parts := (p.splitOn '/').filter (fun seg => !seg.isEmpty && !(seg == ['.']))
  match parts.getLast? with
  | none => []
  | some n => n

-- ## SHA-1 (hashlib.sha1) over byte lists, machine words as Nat mod 2 to the 32

def w32 : Nat := 4294967296

def rotl (n x : Nat) : Nat := ((x <<< n) ||| (x >>> (32 - n))) % w32

def bnot32 (x : Nat) : Nat := x ^^^ (w32 - 1)

/-- SHA-1 padding: a `0x80` byte, zeros to 56 mod 64, then the bit length as
eight big-endian bytes. -/
def sha1padding (msg : List Nat) : List Nat :=
  let ml : Nat := msg.length * 8
  let k : Nat := (120 - (msg.length + 1) % 64) % 64
  msg ++ [128] ++ List.replicate k 0 ++
    [ml >>> 56 % 256, ml >>> 48 % 256, ml >>> 40 % 256, ml >>> 32 % 256,
     ml >>> 24 % 256, ml >>> 16 % 256, ml >>> 8 % 256, ml % 256]

/-- Group bytes into big-endian 32-bit words (fuel-driven chunking). -/
def bytesToWords : Nat → List Nat → List Nat
  | 0, _ => []
  | _, [] => []
  | f + 1, l =>
    (l.take 4).foldl (fun acc b => acc * 256 + b) 0 :: bytesToWords f (l.drop 4)

/-- Group bytes into 64-byte blocks (fuel-driven chunking). -/
def chunks64 : Nat → List Nat → List (List Nat)
  | 0, _ => []
  | _, [] => []
  | f + 1, l => l.take 64 :: chunks64 f (l.drop 64)

/-- Extend the 16-word schedule to 80 words. -/
def extendW : Nat → List Nat → List Nat
  | 0, ws => ws
  | n + 1, ws =>
    extendW n (ws ++ [rotl 1 ((ws.getD (ws.length - 3) 0) ^^^ (ws.getD (ws.length - 8) 0)
      ^^^ (ws.getD (ws.length - 14) 0) ^^^ (ws.getD (ws.length - 16) 0))])

def sha1f (t b c d : Nat) : Nat :=
  if t < 20 then (b &&& c) ||| (bnot32 b &&& d)
  else if t < 40 then b ^^^ c ^^^ d
  else if t < 60 then (b &&& c) ||| (b &&& d) ||| (c &&& d)
  else b ^^^ c ^^^ d

def sha1k (t : Nat) : Nat :=
  if t < 20 then 1518500249
  else if t < 40 then 1859775393
  else if t < 60 then 2400959708
  else 3395469782

def sha1round (w : List Nat) (st : Nat × Nat × Nat × Nat × Nat) (t : Nat) :
    Nat × Nat × Nat × Nat × Nat :=
  let a := st.1
  let b := st.2.1
  let c := st.2.2.1
  let d := st.2.2.2.1
  let e := st.2.2.2.2
  let tmp := (rotl 5 a + sha1f t b c d + e + sha1k t + w.getD t 0) % w32
  (tmp, a, rotl 30 b, c, d)

def sha1block (st : Nat × Nat × Nat × Nat × Nat) (block : List Nat) :
    Nat × Nat × Nat × Nat × Nat :=
  let w := extendW 64 (bytesToWords block.length block)
  let r := (List.range 80).foldl (sha1round w) st
  ((st.1 + r.1) % w32, (st.2.1 + r.2.1) % w32, (st.2.2.1 + r.2.2.1) % w32,
   (st.2.2.2.1 + r.2.2.2.1) % w32, (st.2.2.2.2 + r.2.2.2.2) % w32)

def sha1digestWords (msg : List Nat) : List Nat :=
  let padded := sha1padding msg
  let blocks := chunks64 padded.length padded
  let st := blocks.foldl sha1block (1732584193, 4023233417, 2562383102, 271733878, 3285377520)
  [st.1, st.2.1, st.2.2.1, st.2.2.2.1, st.2.2.2.2]

def hexDigit (n : Nat) : Char :=
  if n < 10 then Char.ofNat (48 + n) else Char.ofNat (87 + n)

/-- Exactly eight lowercase hex characters of a 32-bit word. -/
def hexWord32 (x : Nat) : Str :=
  [hexDigit (x / 268435456 % 16), hexDigit (x / 16777216 % 16),
   hexDigit (x / 1048576 % 16), hexDigit (x / 65536 % 16),
   hexDigit (x / 4096 % 16), hexDigit (x / 256 % 16),
   hexDigit (x / 16 % 16), hexDigit (x % 16)]

/-- `hashlib.sha1(...).hexdigest()`: forty lowercase hex characters. -/
def sha1hexdigest (msg : List Nat) : Str :=
  ((sha1digestWords msg).map hexWord32).flatten

/-- UTF-8 bytes of a string; coincides with CPython `s.encode("utf-8")` on
the ASCII strings (URLs) the scripts hash. -/
def strBytes (s : Str) : List Nat := s.map Char.toNat

/-- Embeds `framer_localize.short_hash` at its default n = 6. -/
def short_hash (s : Str) : Str := (sha1hexdigest (strBytes s)).take 6

-- ## Filename derivation, framer_localize variant

/-- Embeds `framer_localize.filename_from_url`. -/
def filename_from_url (url : Str) (prefer_ext : Str) : Str :=
  let u := urlsplit url
  let base0 := osBasename u.path
  let base1 := if base0 = [] then ('f' :: 'i' :: 'l' :: 'e' :: []) else base0
  let ne := splitext base1
  let name := ne.1
  let ext0 := ne.2
  let ext :=
    if ext0 = [] ∧ prefer_ext ≠ [] then
      (if prefer_ext.head? = some '.' then prefer_ext else '.' :: prefer_ext)
    else ext0
  if u.query ≠ [] then name ++ '.' :: (short_hash url ++ ext)
  else name ++ ext

/-- The base name `filename_from_url` starts from: the basename of the URL
path, or `file` when that is empty. -/
def fnameBase (url : Str) : Str :=
  if osBasename (urlsplit url).path = [] then ('f' :: 'i' :: 'l' :: 'e' :: [])
  else osBasename (urlsplit url).path

/-- The extension `filename_from_url` settles on, after the preferred-ext
fallback. -/
def fnameExt (url pe : Str) : Str :=
  if (splitext (fnameBase url)).2 = [] ∧ pe ≠ [] then
    (if pe.head? = some '.' then pe else '.' :: pe)
  else (splitext (fnameBase url)).2

-- ## Filename derivation and category directory, mirror_framer variant

def takeBeforeChar (c : Char) (s : Str) : Str := s.takeWhile (fun x => !(x = c))

/-- Embeds `mirror_framer.hashed_name_from_url`. -/
def hashed_name_from_url (url : Str) : Str :=
  let p := urlsplit url
  let base0 := pathlibName p.path
  let base1 := if base0 = [] then ('a' :: 's' :: 's' :: 'e' :: 't' :: []) else base0
  let base2 := if occursIn ['?'] base1 then takeBeforeChar '?' base1 else base1
  let base3 := if occursIn ['#'] base2 then takeBeforeChar '#' base2 else base2
  if base3 = [] then
    ('a' :: 's' :: 's' :: 'e' :: 't' :: '-' :: []) ++ (sha1hexdigest (strBytes url)).take 8
  else base3

/-- The guard of the hash-suffix fallback branch in
`mirror_framer.hashed_name_from_url`: true exactly when that branch runs. -/
def hashed_name_fallback_reached (url : Str) : Bool :=
  let p := urlsplit url
  let base0 := pathlibName p.path
  let base1 := if base0 = [] then ('a' :: 's' :: 's' :: 'e' :: 't' :: []) else base0
  let base2 := if occursIn ['?'] base1 then takeBeforeChar '?' base1 else base1
  let base3 := if occursIn ['#'] base2 then takeBeforeChar '#' base2 else base2
  base3 == []

/-- Embeds `mirror_framer.ext_of`: lower-cased last-dot suffix of the final
path segment. -/
def ext_of (url : Str) : Str :=
  let p := urlsplit url
  let base := osBasename p.path
  match rfindChar '.' base with
  | none => []
  | some d => lowerStr (base.drop d)

def IMG_EXT : List Str :=
  [".png".toList, ".jpg".toList, ".jpeg".toList, ".webp".toList, ".avif".toList,
   ".gif".toList, ".svg".toList, ".ico".toList, ".bmp".toList]

def MEDIA_EXT : List Str :=
  [".mp4".toList, ".webm".toList, ".ogg".toList, ".mp3".toList, ".wav".toList]

def FONT_EXT : List Str := [".woff2".toList, ".woff".toList, ".ttf".toList, ".otf".toList]

def CSS_EXT : List Str := [".css".toList]

def JS_EXT : List Str := [".js".toList, ".mjs".toList, ".map".toList]

def JSON_EXT : List Str := [".json".toList]

def DIR_IMG : Str := "assets/images".toList
def DIR_FONT : Str := "assets/fonts".toList
def DIR_CSS : Str := "assets/css".toList
def DIR_JS : Str := "assets/js".toList
def DIR_JS_FR : Str := "assets/js/framer".toList

def is_http_url (u : Str) : Bool :=
  let p := urlsplit u
  (p.scheme == "http".toList || p.scheme == "https".toList) && !p.netloc.isEmpty

def FRAMER_HOSTS : List Str :=
  ["framerusercontent.com".toList, "framerstatic.com".toList,
   "framer.com".toList, "cdn.framer.com".toList]

def host_looks_like_framer (u : Str) : Bool :=
  FRAMER_HOSTS.any (fun h => occursIn h (lowerStr (urlsplit u).netloc))

/-- Embeds `mirror_framer.choose_local_dir`. -/
def choose_local_dir (url : Str) : Str :=
  let e := ext_of url
  if e ∈ IMG_EXT ∨ e ∈ MEDIA_EXT then DIR_IMG
  else if e ∈ FONT_EXT then DIR_FONT
  else if e ∈ CSS_EXT then DIR_CSS
  else if e ∈ JS_EXT then
    (if occursIn ("framer".toList) (lowerStr url)
        || (".mjs".toList).isSuffixOf (lowerStr (urlsplit url).path) then DIR_JS_FR
     else DIR_JS)
  else if e ∈ JSON_EXT then DIR_JS
  else DIR_IMG

-- ## Filesystem state and effect traces

/-- A file system snapshot: files with contents, plus directories. -/
structure FS where
  files : List (Str × Str)
  dirs : List Str
deriving Repr, DecidableEq

def FS.hasFile (fs : FS) (p : Str) : Bool := fs.files.any (fun f => f.1 == p)

def FS.getFile (fs : FS) (p : Str) : Option Str :=
  match fs.files.find? (fun f => f.1 == p) with
  | none => none
  | some f => some f.2

/-- Write (create or overwrite) a file. -/
def FS.setFile (fs : FS) (p content : Str) : FS :=
  { fs with files := (p, content) :: fs.files.filter (fun f => !(f.1 == p)) }

/-- `mkdir(parents=True, exist_ok=True)`. -/
def FS.mkdirp (fs : FS) (d : Str) : FS :=
  if d ∈ fs.dirs then fs else { fs with dirs := d :: fs.dirs }

/-- Observable side effects of a run. -/
inductive Effect where
  | mkdirp : Str → Effect
  | fwrite : Str → Str → Effect
  | netget : Str → Effect
  | out : Str → Effect
deriving Repr, DecidableEq

def Effect.isWrite : Effect → Bool
  | Effect.fwrite _ _ => true
  | _ => false

def Effect.isNet : Effect → Bool
  | Effect.netget _ => true
  | _ => false

def Effect.isMkdir : Effect → Bool
  | Effect.mkdirp _ => true
  | _ => false

-- ## framer_localize download and per-file processing

/-- Embeds `framer_localize.download`.  The oracle returns `some body` for a
successful GET whose `raise_for_status` passes (the body arrives fully
buffered in `r.content`), and `none` when `requests.get` or
`raise_for_status` raises — the function's except branch. -/
def download (net : Str → Option Str) (fs : FS) (url dest : Str) (dry : Bool) :
    Bool × FS × List Effect :=
  if fs.hasFile dest then (true, fs, [])
  else if dry then
    (true, fs, [Effect.out ("  DRYRUN: would download -> ".toList ++ dest)])
  else
    match net url with
    | some body =>
      (true, fs.setFile dest body,
        [Effect.netget url, Effect.fwrite dest body,
         Effect.out ("  OK: ".toList ++ url ++ " -> ".toList ++ dest)])
    | none =>
      (false, fs, [Effect.netget url,
        Effect.out ("  ERROR: download failed ".toList ++ url)])

/-- Regex alternatives of `IMAGE_EXT_RE`, in alternation order (with `jpe?g`
trying `jpeg` before `jpg`). -/
def IMAGE_EXT_ALTS : List Str :=
  ["png".toList, "jpeg".toList, "jpg".toList, "webp".toList, "gif".toList,
   "svg".toList, "ico".toList, "avif".toList]

def isWordChar (c : Char) : Bool := c.isAlphanum || c = '_'

/-- After a literal dot: the first alternative that matches and is followed
by a word boundary. -/
def tryImageAltsAt (t : Str) : Option Str :=
  IMAGE_EXT_ALTS.findSome? (fun a =>
    if a.isPrefixOf t then
      (match (t.drop a.length).head? with
       | none => some a
       | some c => if isWordChar c then none else some a)
    else none)

/-- Leftmost match of the pattern dot-image-extension-word-boundary. -/
def searchImageExt : Str → Option Str
  | [] => none
  | c :: t =>
    if c = '.' then
      match tryImageAltsAt t with
      | some a => some a
      | none => searchImageExt t
    else searchImageExt t

def tryFormatAt (t : Str) : Option Str :=
  if ("format=".toList).isPrefixOf t then
    IMAGE_EXT_ALTS.findSome? (fun a => if a.isPrefixOf (t.drop 7) then some a else none)
  else none

/-- Leftmost match of the pattern query-separator `format=` extension. -/
def searchFormatExt : Str → Option Str
  | [] => none
  | c :: t =>
    if c = '?' || c = '&' then
      match tryFormatAt t with
      | some a => some a
      | none => searchFormatExt t
    else searchFormatExt t

/-- Embeds `framer_localize.preferred_ext`; the searches run on the
lower-cased URL, modelling the `re.I` flag. -/
def preferred_ext (url : Str) : Str :=
  match searchImageExt (lowerStr url) with
  | some e => '.' :: e
  | none =>
    match searchFormatExt (lowerStr url) with
    | some e => '.' :: e
    | none => []

def ASSETS_IMG_DIR : Str := "assets/images".toList
def ASSETS_JS_DIR : Str := "assets/js/framer".toList

/-- Running state while `process_file` handles one file. -/
structure ProcState where
  fs : FS
  mapping : List (Str × Str)
  effects : List Effect
  msgs : List Str
deriving Repr, DecidableEq

/-- One iteration of the image loop in `framer_localize.process_file`. -/
def processImgStep (net : Str → Option Str) (args_dry args_nodl : Bool)
    (st : ProcState) (url : Str) : ProcState :=
  let ext := preferred_ext url
  let local_name := filename_from_url url ext
  let local_rel := ASSETS_IMG_DIR ++ '/' :: local_name
  if args_nodl then
    if !(st.fs.hasFile local_rel) then
      { st with
          mapping := st.mapping ++ [(url, local_rel)]
          msgs := st.msgs ++ [("warn missing local file: ".toList ++ local_rel)] }
    else { st with mapping := st.mapping ++ [(url, local_rel)] }
  else
    let r := download net st.fs url local_rel args_dry
    { st with
        fs := r.2.1
        effects := st.effects ++ r.2.2
        mapping := st.mapping ++ [(url, local_rel)] }

/-- One iteration of the module-script loop in `process_file`. -/
def processMjsStep (net : Str → Option Str) (args_dry args_nodl : Bool)
    (st : ProcState) (url : Str) : ProcState :=
  let base := filename_from_url url (".mjs".toList)
  let local_rel := ASSETS_JS_DIR ++ '/' :: base
  if args_nodl then
    if !(st.fs.hasFile local_rel) then
      { st with
          mapping := st.mapping ++ [(url, local_rel)]
          msgs := st.msgs ++ [("warn missing local file: ".toList ++ local_rel)] }
    else { st with mapping := st.mapping ++ [(url, local_rel)] }
  else
    let r := download net st.fs url local_rel args_dry
    { st with
        fs := r.2.1
        effects := st.effects ++ r.2.2
        mapping := st.mapping ++ [(url, local_rel)] }

/-- One iteration of the events-script loop in `process_file`; the target
directory is created (again) at each match. -/
def processEventStep (net : Str → Option Str) (args_dry args_nodl : Bool)
    (st : ProcState) (url : Str) : ProcState :=
  let local_rel := ASSETS_JS_DIR ++ '/' :: "events-script-v2.js".toList
  let st1 : ProcState :=
    { st with
        fs := st.fs.mkdirp ASSETS_JS_DIR
        effects := st.effects ++ [Effect.mkdirp ASSETS_JS_DIR] }
  if !args_nodl then
    let r := download net st1.fs url local_rel args_dry
    { st1 with
        fs := r.2.1
        effects := st1.effects ++ r.2.2
        mapping := st1.mapping ++ [(url, local_rel)] }
  else { st1 with mapping := st1.mapping ++ [(url, local_rel)] }

-- ## Link normalizer (HREF_RE.sub with repl_link) and link map

/-- Python `str.strip(chars)`: remove the given characters from both ends. -/
def stripChars (cs s : Str) : Str :=
  ((s.dropWhile (fun c => cs.contains c)).reverse.dropWhile (fun c => cs.contains c)).reverse

/-- Python `str.strip()`: remove whitespace from both ends. -/
def pyStripWs (s : Str) : Str :=
  ((s.dropWhile Char.isWhitespace).reverse.dropWhile Char.isWhitespace).reverse

/-- The target a candidate href is normalized to before lookup:
`href.strip().strip("./").strip("/")`. -/
def linkTarget (href : Str) : Str :=
  stripChars ("/".toList) (stripChars ("./".toList) (pyStripWs href))

/-- Embeds `repl_link` inside `framer_localize.process_file`: `href` and `q`
are the two captured groups of one `HREF_RE` match; the result replaces the
whole match. -/
def repl_link (link_map : List (Str × Str)) (href q : Str) : Str :=
  let whole := ("href=".toList ++ '"' :: href) ++ q ++ ['"']
  let target := linkTarget href
  if target = [] ∨ '.' ∈ target then whole
  else
    match link_map.lookup target with
    | some v => ("href=".toList ++ '"' :: v) ++ q ++ ['"']
    | none =>
      match link_map.lookup (lowerStr target) with
      | some v => ("href=".toList ++ '"' :: v) ++ q ++ ['"']
      | none => whole

/-- Deterministic matcher for `HREF_RE` at the current position: the literal
`href="`, one or more characters outside quote, hash and question mark, an
optional query group, and the closing quote.  Returns the two groups and the
rest of the input. -/
def matchHrefAt (s : Str) : Option (Str × Str × Str) :=
  if ("href=".toList ++ ['"']).isPrefixOf s then
    let r1 := s.drop 6
    let href := r1.takeWhile (fun c => !(c = '"' || c = '#' || c = '?'))
    if href = [] then none
    else
      match r1.drop href.length with
      | '?' :: r3 =>
        let qb := r3.takeWhile (fun c => !(c = '"'))
        (match r3.drop qb.length with
         | '"' :: r5 => some (href, '?' :: qb, r5)
         | _ => none)
      | '"' :: r5 => some (href, [], r5)
      | _ => none
  else none

/-- Fueled scan of `HREF_RE.sub(repl_link, txt)`: leftmost, non-overlapping,
one-character advance on failure. -/
def rewriteLinksGo (link_map : List (Str × Str)) : Nat → Str → Str
  | 0, s => s
  | fuel + 1, s =>
    match s with
    | [] => []
    | c :: t =>
      match matchHrefAt (c :: t) with
      | some r => repl_link link_map r.1 r.2.1 ++ rewriteLinksGo link_map fuel r.2.2
      | none => c :: rewriteLinksGo link_map fuel t

/-- Embeds the link-rewrite substitution of `framer_localize.process_file`. -/
def rewriteLinks (link_map : List (Str × Str)) (s : Str) : Str :=
  rewriteLinksGo link_map s.length s

/-- `pathlib.PurePath.stem`: drop the extension of the last-dot rule, where a
leading dot does not start an extension. -/
def pathStem (nm : Str) : Str :=
  match rfindChar '.' nm with
  | none => nm
  | some i => if 0 < i then nm.take i else nm

/-- Dict assignment `m[k] = v`: overwrite in place or append. -/
def dictInsert (m : List (Str × Str)) (k v : Str) : List (Str × Str) :=
  if (m.lookup k).isSome then m.map (fun p => if p.1 == k then (k, v) else p)
  else m ++ [(k, v)]

/-- Embeds `framer_localize.build_link_map` over the list of root-level HTML
file names in glob order. -/
def build_link_map (htmlNames : List Str) : List (Str × Str) :=
  htmlNames.foldl
    (fun m nm => dictInsert (dictInsert m (pathStem nm) nm) (lowerStr (pathStem nm)) nm) []

-- ## framer_localize process_file, asset part assembled

/-- The image block of `framer_localize.process_file`: when image URLs were
found, the image directory is created and each URL handled in turn. -/
def assetsStage1 (net : Str → Option Str) (dry_run no_download : Bool)
    (imgUrls : List Str) (fs : FS) : ProcState :=
  let st0 : ProcState := { fs := fs, mapping := [], effects := [], msgs := [] }
  if imgUrls ≠ [] then
    imgUrls.foldl (processImgStep net dry_run no_download)
      { st0 with
          fs := st0.fs.mkdirp ASSETS_IMG_DIR
          effects := st0.effects ++ [Effect.mkdirp ASSETS_IMG_DIR] }
  else st0

/-- The module-script block of `framer_localize.process_file`. -/
def assetsStage2 (net : Str → Option Str) (dry_run no_download : Bool)
    (mjsUrls : List Str) (st1 : ProcState) : ProcState :=
  if mjsUrls ≠ [] then
    mjsUrls.foldl (processMjsStep net dry_run no_download)
      { st1 with
          fs := st1.fs.mkdirp ASSETS_JS_DIR
          effects := st1.effects ++ [Effect.mkdirp ASSETS_JS_DIR] }
  else st1

/-- The events-script block of `framer_localize.process_file`; skipped under
`--keep-cdn-events`. -/
def assetsStage3 (net : Str → Option Str) (dry_run no_download keep_cdn_events : Bool)
    (eventUrls : List Str) (st2 : ProcState) : ProcState :=
  if !keep_cdn_events then
    eventUrls.foldl (processEventStep net dry_run no_download) st2
  else st2

/-- The three asset loops (images, module scripts, events script) of
`framer_localize.process_file`, over the URL lists the regex scans found. -/
def process_assets (net : Str → Option Str) (dry_run no_download keep_cdn_events : Bool)
    (imgUrls mjsUrls eventUrls : List Str) (fs : FS) : ProcState :=
  assetsStage3 net dry_run no_download keep_cdn_events eventUrls
    (assetsStage2 net dry_run no_download mjsUrls
      (assetsStage1 net dry_run no_download imgUrls fs))

/-- Embeds `framer_localize.process_file`.  The sets of URLs discovered by
the regex scans are passed in as lists (iteration order of the Python sets);
`txt` is the text read from `fpath`.  Returns the changed flag and the final
state. -/
def process_file (net : Str → Option Str) (dry_run no_download keep_cdn_events rewrite_links : Bool)
    (fpath : Str) (isHtml : Bool) (txt : Str)
    (imgUrls mjsUrls eventUrls : List Str) (link_map : List (Str × Str)) (fs : FS) :
    Bool × ProcState :=
  let st3 := process_assets net dry_run no_download keep_cdn_events imgUrls mjsUrls eventUrls fs
  let txt2 := rewriteLinks link_map txt
  let linkChange : Bool := rewrite_links && isHtml && !dry_run && !(txt2 == txt)
  let txtB := if linkChange then txt2 else txt
  if st3.mapping ≠ [] then
    if dry_run then
      (linkChange, { st3 with msgs := st3.msgs ++ ["dryrun would update".toList] })
    else
      let new_txt := replace_all txtB st3.mapping
      if new_txt ≠ txt ∨ linkChange then
        (true,
          { st3 with
              fs := st3.fs.setFile fpath new_txt
              effects := st3.effects ++ [Effect.fwrite fpath new_txt]
              msgs := st3.msgs ++ ["updated".toList] })
      else (linkChange, { st3 with msgs := st3.msgs ++ ["no changes".toList] })
  else
    if linkChange && !dry_run then
      (linkChange,
        { st3 with
            fs := st3.fs.setFile fpath txtB
            effects := st3.effects ++ [Effect.fwrite fpath txtB]
            msgs := st3.msgs ++ ["rewrote links".toList] })
    else (linkChange, { st3 with msgs := st3.msgs ++ ["no changes".toList] })

-- ## mirror_framer download

/-- Outcome of one `SESSION.get(url, stream=True)` call in the model:
an exception at connect time, a non-success status (`raise_for_status`
raises), or a streamed body delivered as chunks; `interrupted` marks a
network error raised inside `iter_content` after those chunks were already
written to the destination file. -/
inductive MirrorResp where
  | connErr : MirrorResp
  | statusErr : MirrorResp
  | body : List Str → Bool → MirrorResp
deriving Repr, DecidableEq

/-- Embeds `mirror_framer.ensure_unique_path`: despite its docstring, both
branches return the unchanged candidate path. -/
def ensure_unique_path (fs : FS) (dst_dir filename : Str) : Str :=
  let candidate := dst_dir ++ '/' :: filename
  if !(fs.hasFile candidate) then candidate else candidate

/-- Embeds `mirror_framer.download`. -/
def mirror_download (net : Str → MirrorResp) (fs : FS) (url : Str) (only_framer : Bool) :
    Option Str × FS × List Effect :=
  if only_framer && is_http_url url && !host_looks_like_framer url then (none, fs, [])
  else if !is_http_url url then (none, fs, [])
  else
    let dst_dir := choose_local_dir url
    let filename := hashed_name_from_url url
    let dst := ensure_unique_path fs dst_dir filename
    if fs.hasFile dst then (some dst, fs, [])
    else
      match net url with
      | MirrorResp.connErr =>
        (none, fs, [Effect.netget url, Effect.out ("warn failed ".toList ++ url)])
      | MirrorResp.statusErr =>
        (none, fs, [Effect.netget url, Effect.out ("warn failed ".toList ++ url)])
      | MirrorResp.body chunks interrupted =>
        let content := chunks.flatten
        if interrupted then
          (none, (fs.mkdirp dst_dir).setFile dst content,
            [Effect.netget url, Effect.mkdirp dst_dir, Effect.fwrite dst content,
             Effect.out ("warn failed ".toList ++ url)])
        else
          (some dst, (fs.mkdirp dst_dir).setFile dst content,
            [Effect.netget url, Effect.mkdirp dst_dir, Effect.fwrite dst content])

/-- A trace is pure when it contains no file write and no network request. -/
def pureEffects (l : List Effect) : Bool := l.all (fun e => !e.isWrite && !e.isNet)

-- ## Tag-ensurer regex matchers (framer_localize, case-insensitive)

/-- Does `pre` match the (lower-case) literal `lit` case-insensitively? -/
def litMatches : Str → Str → Bool
  | [], [] => true
  | a :: as, c :: cs => (c.toLower == a) && litMatches as cs
  | _, _ => false

/-- Match a (lower-case) literal case-insensitively at the head of the
input; on success return the rest. -/
def litCI : Str → Str → Option Str
  | [], s => some s
  | _ :: _, [] => none
  | a :: as, c :: cs => if c.toLower = a then litCI as cs else none

/-- Continue with `f` after a literal matched. -/
def litCIThen (lit : Str) (f : Str → Bool) (s : Str) : Bool :=
  match litCI lit s with
  | none => false
  | some r => f r

/-- The regex gap `[^>]+`: consume at least one non-gt character, trying
every split (regex backtracking). -/
def gapThen (f : Str → Bool) : Str → Bool
  | [] => false
  | c :: t => if c = '>' then false else (f t || gapThen f t)

/-- A quote character `["\x27]` (double or single), then continue. -/
def quoteThen (f : Str → Bool) : Str → Bool
  | [] => false
  | c :: t => (c = '"' || c = Char.ofNat 39) && f t

/-- Anchored match of `CSS_TAG_RE` at the current position. -/
def cssTagHere : Str → Bool :=
  litCIThen ("<link".toList) (gapThen (litCIThen ("href=".toList)
    (quoteThen (litCIThen ("assets/css/framer.css".toList)
      (quoteThen (fun _ => true))))))

/-- Anchored match of `EVT_TAG_RE` at the current position. -/
def evtTagHere : Str → Bool :=
  litCIThen ("<script".toList) (gapThen (litCIThen ("src=".toList)
    (quoteThen (litCIThen ("assets/js/framer/events-script-v2.js".toList)
      (quoteThen (fun _ => true))))))

/-- Anchored match of `MAIN_TAG_RE` at the current position. -/
def mainTagHere : Str → Bool :=
  litCIThen ("<script".toList) (gapThen (litCIThen ("type=".toList)
    (quoteThen (litCIThen ("module".toList) (quoteThen
      (gapThen (litCIThen ("src=".toList) (quoteThen
        (litCIThen ("assets/js/framer/script_main.bw_sfk1g.mjs".toList)
          (quoteThen (fun _ => true)))))))))))

/-- `re.search`: does the anchored matcher succeed at any position? -/
def searchBool (here : Str → Bool) : Str → Bool
  | [] => here []
  | c :: t => here (c :: t) || searchBool here t

def CSS_TAG_SEARCH (s : Str) : Bool := searchBool cssTagHere s
def EVT_TAG_SEARCH (s : Str) : Bool := searchBool evtTagHere s
def MAIN_TAG_SEARCH (s : Str) : Bool := searchBool mainTagHere s

/-- First index at which a (lower-case) literal matches case-insensitively
(the `(?i)` literal patterns used with `re.sub(..., count=1)`). -/
def findCI (pat : Str) : Str → Option Nat
  | [] =>
    match litCI pat [] with
    | some _ => some 0
    | none => none
  | c :: t =>
    match litCI pat (c :: t) with
    | some _ => some 0
    | none =>
      match findCI pat t with
      | some i => some (i + 1)
      | none => none

/-- `re.sub(pat, repl, s, count=1)` for a case-insensitive literal. -/
def subFirstCI (pat repl s : Str) : Str :=
  match findCI pat s with
  | none => s
  | some i => s.take i ++ repl ++ s.drop (i + pat.length)

/-- The injected stylesheet line, up to the re-emitted closing head tag. -/
def cssInjectPre : Str :=
  "  <link rel=\"stylesheet\" href=\"assets/css/framer.css\">\n".toList

/-- The replacement text for the stylesheet injection. -/
def cssInject : Str := cssInjectPre ++ "</head>".toList

/-- The injected events-script line, up to the re-emitted closing body tag. -/
def evtInjectPre : Str :=
  "  <script src=\"assets/js/framer/events-script-v2.js\"></script>\n".toList

/-- The replacement text for the events-script injection. -/
def evtInject : Str := evtInjectPre ++ "</body>".toList

/-- The injected module-script line, up to the re-emitted closing body tag. -/
def mainInjectPre : Str :=
  "  <script type=\"module\" src=\"assets/js/framer/script_main.Bw_SFk1g.mjs\"></script>\n".toList

/-- The replacement text for the module-script injection. -/
def mainInject : Str := mainInjectPre ++ "</body>".toList

/-- The stylesheet step of `ensure_framer_tags`, on text. -/
def ensureCssText (html : Str) : Str :=
  if CSS_TAG_SEARCH html then html
  else subFirstCI ("</head>".toList) cssInject html

/-- The events-script step of `ensure_framer_tags`, on text. -/
def ensureEvtText (html : Str) : Str :=
  if EVT_TAG_SEARCH html then html
  else subFirstCI ("</body>".toList) evtInject html

/-- The module-script step of `ensure_framer_tags`, on text. -/
def ensureMainText (html : Str) : Str :=
  if MAIN_TAG_SEARCH html then html
  else subFirstCI ("</body>".toList) mainInject html

/-- The full text transformation of `ensure_framer_tags`. -/
def ensureTagsText (html : Str) : Str :=
  ensureMainText (ensureEvtText (ensureCssText html))

/-- Embeds the body of `framer_localize.ensure_framer_tags`: the changed
flag and the final text, with each presence check performed on the text as
mutated so far. -/
def ensure_framer_tags_model (html : Str) : Bool × Str :=
  let h1 := ensureCssText html
  let c1 := !(CSS_TAG_SEARCH html)
  let h2 := ensureEvtText h1
  let c2 := c1 || !(EVT_TAG_SEARCH h1)
  let h3 := ensureMainText h2
  let c3 := c2 || !(MAIN_TAG_SEARCH h2)
  (c3, h3)

/-- Embeds `framer_localize.ensure_framer_tags` with its file write:
`html` is the text read from `fpath`; the file is rewritten exactly when
the changed flag is set. -/
def ensure_framer_tags (fs : FS) (fpath html : Str) : Bool × FS × List Effect :=
  let r := ensure_framer_tags_model html
  if r.1 then
    (true, fs.setFile fpath r.2,
      [Effect.fwrite fpath r.2, Effect.out ("EnsureTags: fixed -> ".toList ++ fpath)])
  else (false, fs, [])

-- ## Basic facts about findSub / occursIn

theorem findSub_isPre {needle hay : Str} {i : Nat} (h : findSub needle hay = some i) :
    needle.isPrefixOf (hay.drop i) = true := by
  induction hay generalizing i with
  | nil =>
    unfold findSub at h
    by_cases hn : needle = ([] : Str)
    · simp [hn] at h ⊢
    · simp [hn] at h
  | cons c t ih =>
    unfold findSub at h
    by_cases hp : needle.isPrefixOf (c :: t)
    · simp [hp] at h
      subst h
      simpa using hp
    · simp [hp] at h
      cases hf : findSub needle t with
      | none => rw [hf] at h; simp at h
      | some j =>
        rw [hf] at h
        simp at h
        subst h
        simpa using ih hf

theorem findSub_none {needle hay : Str} (h : findSub needle hay = none) :
    ∀ i, needle.isPrefixOf (hay.drop i) = false := by
  induction hay with
  | nil =>
    intro i
    unfold findSub at h
    by_cases hn : needle = ([] : Str)
    · simp [hn] at h
    · cases needle with
      | nil => simp at hn
      | cons a b => simp [List.isPrefixOf]
  | cons c t ih =>
    intro i
    unfold findSub at h
    by_cases hp : needle.isPrefixOf (c :: t)
    · simp [hp] at h
    · simp [hp] at h
      cases hf : findSub needle t with
      | none =>
        cases i with
        | zero =>
          rw [List.drop_zero]
          exact Bool.eq_false_iff.mpr hp
        | succ j => simpa using ih hf j
      | some j => rw [hf] at h; simp at h

theorem findSub_min {needle hay : Str} {i : Nat} (h : findSub needle hay = some i) :
    ∀ j, j < i → needle.isPrefixOf (hay.drop j) = false := by
  induction hay generalizing i with
  | nil =>
    intro j hj
    unfold findSub at h
    by_cases hn : needle = ([] : Str)
    · simp [hn] at h; omega
    · simp [hn] at h
  | cons c t ih =>
    intro j hj
    unfold findSub at h
    by_cases hp : needle.isPrefixOf (c :: t)
    · simp [hp] at h; omega
    · simp [hp] at h
      cases hf : findSub needle t with
      | none => rw [hf] at h; simp at h
      | some k =>
        rw [hf] at h
        simp at h
        subst h
        cases j with
        | zero =>
          rw [List.drop_zero]
          exact Bool.eq_false_iff.mpr hp
        | succ j2 => simpa using ih hf j2 (by omega)

theorem isPre_iff {l m : Str} : l.isPrefixOf m = true ↔ l <+: m := by
  exact List.isPrefixOf_iff_prefix

theorem findSub_some_exists {needle hay : Str} {i : Nat}
    (h : findSub needle hay = some i) :
    ∃ b : Str, hay = hay.take i ++ needle ++ b := by
  have hp : needle <+: hay.drop i := isPre_iff.mp (findSub_isPre h)
  rcases hp with ⟨b, hb⟩
  refine ⟨b, ?_⟩
  conv_lhs => rw [← List.take_append_drop i hay, ← hb]
  simp

theorem findSub_le_length {needle hay : Str} {i : Nat}
    (h : findSub needle hay = some i) : i ≤ hay.length := by
  induction hay generalizing i with
  | nil =>
    unfold findSub at h
    by_cases hn : needle = ([] : Str)
    · simp [hn] at h
      omega
    · simp [hn] at h
  | cons c t ih =>
    unfold findSub at h
    by_cases hp : needle.isPrefixOf (c :: t)
    · simp [hp] at h
      omega
    · simp [hp] at h
      cases hf : findSub needle t with
      | none => rw [hf] at h; simp at h
      | some j =>
        rw [hf] at h
        simp at h
        subst h
        have := ih hf
        simp
        omega

theorem findSub_some_bound {needle hay : Str} {i : Nat}
    (h : findSub needle hay = some i) : i + needle.length ≤ hay.length := by
  rcases findSub_some_exists h with ⟨b, hb⟩
  have hi := findSub_le_length h
  have hlen : hay.length = i + needle.length + b.length := by
    conv_lhs => rw [hb]
    simp [List.length_append, List.length_take, Nat.min_eq_left hi]
    omega
  omega

/-- Characterization: `occursIn k s` exactly when `k` is an infix of `s`. -/
theorem occursIn_true_iff {k s : Str} : occursIn k s = true ↔ k <:+: s := by
  constructor
  · intro h
    unfold occursIn at h
    cases hf : findSub k s with
    | none => rw [hf] at h; simp at h
    | some i =>
      rcases findSub_some_exists hf with ⟨b, hb⟩
      exact ⟨s.take i, b, by rw [← hb]⟩
  · rintro ⟨a, b, hab⟩
    unfold occursIn
    cases hf : findSub k s with
    | none =>
      have := findSub_none hf a.length
      have hpre : k.isPrefixOf (s.drop a.length) = true := by
        rw [isPre_iff]
        refine ⟨b, ?_⟩
        have : s.drop a.length = k ++ b := by
          rw [← hab]
          simp
        rw [this]
      rw [this] at hpre
      exact absurd hpre (by simp)
    | some i => simp

theorem findSub_none_no_occurrence {k s : Str} (h : findSub k s = none) : ¬ k <:+: s := by
  intro hi
  have h2 := occursIn_true_iff.mpr hi
  unfold occursIn at h2
  rw [h] at h2
  simp at h2

-- ## Unfolding equations for pyReplace

theorem pyReplaceFuel_fuel_irrel (old new : Str) (h0 : old ≠ []) :
    ∀ fuel1 fuel2 s, s.length ≤ fuel1 → s.length ≤ fuel2 →
      pyReplaceFuel old new fuel1 s = pyReplaceFuel old new fuel2 s := by
  have hold1 : 1 ≤ old.length := by
    cases old with
    | nil => exact absurd rfl h0
    | cons a b => simp
  intro fuel1
  induction fuel1 with
  | zero =>
    intro fuel2 s hs1 hs2
    have hnil : s = [] := by
      cases s with
      | nil => rfl
      | cons c t => simp at hs1
    subst hnil
    cases fuel2 with
    | zero => rfl
    | succ g =>
      show pyReplaceFuel old new 0 [] = pyReplaceFuel old new (g + 1) []
      have hfs : findSub old [] = none := by
        unfold findSub
        simp [h0]
      simp [pyReplaceFuel, hfs]
  | succ f ihf =>
    intro fuel2 s hs1 hs2
    cases fuel2 with
    | zero =>
      have hnil : s = [] := by
        cases s with
        | nil => rfl
        | cons c t => simp at hs2
      subst hnil
      have hfs : findSub old [] = none := by
        unfold findSub
        simp [h0]
      simp [pyReplaceFuel, hfs]
    | succ g =>
      show pyReplaceFuel old new (f + 1) s = pyReplaceFuel old new (g + 1) s
      cases hfs : findSub old s with
      | none => simp [pyReplaceFuel, hfs]
      | some i =>
        have hb := findSub_some_bound hfs
        have hdlen : (s.drop (i + old.length)).length ≤ f ∧
            (s.drop (i + old.length)).length ≤ g := by
          constructor <;> (simp [List.length_drop]; omega)
        simp only [pyReplaceFuel, hfs]
        rw [ihf g (s.drop (i + old.length)) hdlen.1 hdlen.2]

theorem pyReplace_of_none {old : Str} (new : Str) {s : Str} (h0 : old ≠ [])
    (h : findSub old s = none) : pyReplace old new s = s := by
  unfold pyReplace
  rw [if_neg h0]
  cases s with
  | nil => rfl
  | cons c t => simp [pyReplaceFuel, h]

theorem pyReplace_of_some {old : Str} (new : Str) {s : Str} {i : Nat} (h0 : old ≠ [])
    (h : findSub old s = some i) :
    pyReplace old new s =
      s.take i ++ new ++ pyReplace old new (s.drop (i + old.length)) := by
  have hold1 : 1 ≤ old.length := by
    cases old with
    | nil => exact absurd rfl h0
    | cons a b => simp
  have hb := findSub_some_bound h
  cases s with
  | nil =>
    unfold findSub at h
    simp [h0] at h
  | cons c t =>
    unfold pyReplace
    rw [if_neg h0, if_neg h0]
    have hlen : (c :: t).length = t.length + 1 := by simp
    rw [hlen]
    simp only [pyReplaceFuel, h]
    have hdlen : ((c :: t).drop (i + old.length)).length ≤ t.length := by
      simp only [List.length_drop]
      simp at hb ⊢
      omega
    rw [pyReplaceFuel_fuel_irrel old new h0 t.length
      ((c :: t).drop (i + old.length)).length _ hdlen (le_refl _)]

-- ## Occurrence decomposition over a three-part concatenation

theorem infix_append3 {t X v Y : Str} (ht : t ≠ []) (hv : v ≠ [])
    (h : t <:+: X ++ v ++ Y) :
    t <:+: X ∨ t <:+: Y ∨ ∃ c, c ∈ v ∧ c ∈ t := by
  rcases h with ⟨a, b, hab⟩
  by_cases h1 : a.length + t.length ≤ X.length
  · left
    have hpre1 : a ++ t <+: X ++ v ++ Y := ⟨b, by rw [← hab]⟩
    have hpre2 : X <+: X ++ v ++ Y := ⟨v ++ Y, by simp⟩
    have hpre3 : a ++ t <+: X := by
      refine List.prefix_of_prefix_length_le hpre1 hpre2 ?_
      simp only [List.length_append]
      omega
    have hinf : t <:+: a ++ t := ⟨a, [], by simp⟩
    exact hinf.trans hpre3.isInfix
  · by_cases h2 : X.length + v.length ≤ a.length
    · right; left
      have hpre1 : X ++ v <+: X ++ v ++ Y := ⟨Y, by simp⟩
      have hpre2 : a <+: X ++ v ++ Y := ⟨t ++ b, by rw [← hab]; simp⟩
      have hpre3 : X ++ v <+: a := by
        refine List.prefix_of_prefix_length_le hpre1 hpre2 ?_
        simp only [List.length_append]
        omega
      rcases hpre3 with ⟨a2, ha2⟩
      have hY : a2 ++ t ++ b = Y := by
        have hexp : (X ++ v) ++ (a2 ++ t ++ b) = (X ++ v) ++ Y := by
          have e1 : (X ++ v) ++ (a2 ++ t ++ b) = ((X ++ v) ++ a2) ++ t ++ b := by
            simp only [List.append_assoc]
          rw [e1, ha2, hab]
        exact List.append_cancel_left hexp
      exact ⟨a2, b, hY⟩
    · right; right
      push_neg at h1 h2
      have hlt : 1 ≤ t.length := by
        cases t with
        | nil => exact absurd rfl ht
        | cons x y => simp
      have hlv : 1 ≤ v.length := by
        cases v with
        | nil => exact absurd rfl hv
        | cons x y => simp
      -- the position max a.length X.length lies inside both t and v
      have hj1 : a.length ≤ max a.length X.length := le_max_left _ _
      have hj2 : X.length ≤ max a.length X.length := le_max_right _ _
      have hj3 : max a.length X.length < a.length + t.length := by
        rcases max_cases a.length X.length with ⟨he, _⟩ | ⟨he, _⟩ <;> omega
      have hj4 : max a.length X.length < X.length + v.length := by
        rcases max_cases a.length X.length with ⟨he, _⟩ | ⟨he, _⟩ <;> omega
      set j := max a.length X.length with hjdef
      have hjt : j - a.length < t.length := by omega
      have hjv : j - X.length < v.length := by omega
      have hv1 : (X ++ v ++ Y)[j]? = v[j - X.length]? := by
        rw [List.getElem?_append_left
          (show j < (X ++ v).length by simp only [List.length_append]; omega)]
        rw [List.getElem?_append_right hj2]
      have ht1 : (a ++ t ++ b)[j]? = t[j - a.length]? := by
        rw [List.getElem?_append_left
          (show j < (a ++ t).length by simp only [List.length_append]; omega)]
        rw [List.getElem?_append_right hj1]
      have heq : v[j - X.length]? = t[j - a.length]? := by
        rw [← ht1, ← hv1, hab]
      have hsome : t[j - a.length]? = some (t[j - a.length]) :=
        List.getElem?_eq_getElem hjt
      refine ⟨t[j - a.length], ?_, ?_⟩
      · exact List.getElem?_mem (heq.trans hsome)
      · exact List.getElem_mem hjt

-- ## No occurrence of a key survives its own replacement pass

theorem not_infix_take_of_findSub {k : Str} {s : Str} {i : Nat}
    (hk1 : 1 ≤ k.length) (h : findSub k s = some i) :
    ¬ k <:+: s.take i := by
  rintro ⟨a, b, hab⟩
  rcases findSub_some_exists h with ⟨rest, hrest⟩
  have hi := findSub_le_length h
  have htlen : (s.take i).length = i := by
    simp [List.length_take, Nat.min_eq_left hi]
  have halen : a.length + k.length + b.length = i := by
    rw [← htlen, ← hab]
    simp
    omega
  have halt : a.length < i := by omega
  have hmin := findSub_min h a.length halt
  have hdrop : s.drop a.length = k ++ (b ++ k ++ rest) := by
    conv_lhs => rw [hrest, ← hab]
    have e1 : a ++ k ++ b ++ k ++ rest = a ++ (k ++ (b ++ k ++ rest)) := by
      simp only [List.append_assoc]
    rw [e1, List.drop_left]
  rw [hdrop] at hmin
  have hpre : k.isPrefixOf (k ++ (b ++ k ++ rest)) = true :=
    isPre_iff.mpr (List.prefix_append k _)
  rw [hpre] at hmin
  simp at hmin

theorem pyReplace_no_key (k old v : Str) (hk : k ≠ []) (hold : old ≠ []) (hv : v ≠ [])
    (hdisj : ∀ c ∈ v, c ∉ k) :
    ∀ n s, s.length ≤ n → (old = k ∨ ¬ k <:+: s) → ¬ k <:+: pyReplace old v s := by
  have hk1 : 1 ≤ k.length := by
    cases k with
    | nil => exact absurd rfl hk
    | cons a b => simp
  intro n
  induction n with
  | zero =>
    intro s hs _
    have hnil : s = [] := by
      cases s with
      | nil => rfl
      | cons c t2 => simp at hs
    subst hnil
    have hfs : findSub old [] = none := by
      unfold findSub
      simp [hold]
    rw [pyReplace_of_none v hold hfs]
    rintro ⟨a, b, hab⟩
    simp [List.append_eq_nil] at hab
    exact hk hab.2.1
  | succ m ih =>
    intro s hs hd
    cases hfs : findSub old s with
    | none =>
      rw [pyReplace_of_none v hold hfs]
      rcases hd with hok | hni
      · subst hok
        exact findSub_none_no_occurrence hfs
      · exact hni
    | some i =>
      rw [pyReplace_of_some v hold hfs]
      intro hinf
      rcases infix_append3 hk hv hinf with h1 | h2 | ⟨c, hcv, hck⟩
      · rcases hd with hok | hni
        · subst hok
          exact not_infix_take_of_findSub hk1 hfs h1
        · exact hni (h1.trans (List.take_prefix i s).isInfix)
      · have hb := findSub_some_bound hfs
        have hold1 : 1 ≤ old.length := by
          cases old with
          | nil => exact absurd rfl hold
          | cons a b2 => simp
        have hrec : (s.drop (i + old.length)).length ≤ m := by
          simp only [List.length_drop]
          omega
        have hd2 : old = k ∨ ¬ k <:+: s.drop (i + old.length) := by
          rcases hd with hok | hni
          · exact Or.inl hok
          · exact Or.inr (fun hx => hni (hx.trans (List.drop_suffix _ _).isInfix))
        exact ih _ hrec hd2 h2
      · exact hdisj c hcv hck

theorem replace_all_keeps_absent (k : Str) (hk : k ≠ []) :
    ∀ (rest : List (Str × Str)) (text : Str),
      (∀ q ∈ rest, q.1 ≠ [] ∧ q.2 ≠ [] ∧ ∀ c ∈ q.2, c ∉ k) →
      ¬ k <:+: text → ¬ k <:+: replace_all text rest := by
  intro rest
  induction rest with
  | nil =>
    intro text _ h
    simpa [replace_all] using h
  | cons q t ih =>
    intro text hq h
    have hq1 := hq q (List.mem_cons_self q t)
    show ¬ k <:+: replace_all (pyReplace q.1 q.2 text) t
    apply ih _ (fun p hp => hq p (List.mem_cons_of_mem q hp))
    exact pyReplace_no_key k q.1 q.2 hk hq1.1 hq1.2.1 hq1.2.2
      text.length text (le_refl _) (Or.inr h)

theorem replace_all_no_key_occurrence :
    ∀ (mapping : List (Str × Str)) (text : Str),
      (∀ p ∈ mapping, p.1 ≠ [] ∧ p.2 ≠ []) →
      (∀ p ∈ mapping, ∀ q ∈ mapping, ∀ c ∈ p.2, c ∉ q.1) →
      ∀ p ∈ mapping, ¬ p.1 <:+: replace_all text mapping := by
  intro mapping
  induction mapping with
  | nil =>
    intro text _ _ p hp
    simp at hp
  | cons q t ih =>
    intro text Hne Hdisj p hp
    rcases List.mem_cons.mp hp with rfl | hpt
    · show ¬ p.1 <:+: replace_all (pyReplace p.1 p.2 text) t
      refine replace_all_keeps_absent p.1 (Hne p (List.mem_cons_self p t)).1 t
        (pyReplace p.1 p.2 text) ?_ ?_
      · intro p2 hp2
        exact ⟨(Hne p2 (List.mem_cons_of_mem p hp2)).1,
          (Hne p2 (List.mem_cons_of_mem p hp2)).2,
          fun c hc => Hdisj p2 (List.mem_cons_of_mem p hp2) p (List.mem_cons_self p t) c hc⟩
      · exact pyReplace_no_key p.1 p.1 p.2 (Hne p (List.mem_cons_self p t)).1
          (Hne p (List.mem_cons_self p t)).1 (Hne p (List.mem_cons_self p t)).2
          (fun c hc => Hdisj p (List.mem_cons_self p t) p (List.mem_cons_self p t) c hc)
          text.length text (le_refl _) (Or.inl rfl)
    · show ¬ p.1 <:+: replace_all (pyReplace q.1 q.2 text) t
      exact ih (pyReplace q.1 q.2 text)
        (fun p2 hp2 => Hne p2 (List.mem_cons_of_mem q hp2))
        (fun p2 hp2 q2 hq2 => Hdisj p2 (List.mem_cons_of_mem q hp2) q2 (List.mem_cons_of_mem q hq2))
        p hpt

-- ## The sort used by rewrite_in_text

theorem insertByLen_mem (p a : Str × Str) :
    ∀ l : List (Str × Str), (a ∈ insertByLen p l ↔ a = p ∨ a ∈ l) := by
  intro l
  induction l with
  | nil => simp [insertByLen]
  | cons q t ih =>
    unfold insertByLen
    by_cases hq : q.1.length ≤ p.1.length
    · simp [hq]
    · simp only [if_neg hq, List.mem_cons, ih]
      tauto

theorem sortByKeyLenDesc_mem (a : Str × Str) :
    ∀ l : List (Str × Str), (a ∈ sortByKeyLenDesc l ↔ a ∈ l) := by
  intro l
  induction l with
  | nil => simp [sortByKeyLenDesc]
  | cons q t ih =>
    show a ∈ insertByLen q (sortByKeyLenDesc t) ↔ _
    rw [insertByLen_mem]
    simp only [List.mem_cons]
    rw [ih]

theorem insertByLen_pairwise (p : Str × Str) :
    ∀ l : List (Str × Str),
      List.Pairwise (fun x y => y.1.length ≤ x.1.length) l →
      List.Pairwise (fun x y => y.1.length ≤ x.1.length) (insertByLen p l) := by
  intro l
  induction l with
  | nil =>
    intro _
    simp [insertByLen]
  | cons q t ih =>
    intro h
    rcases List.pairwise_cons.mp h with ⟨hq, ht⟩
    unfold insertByLen
    by_cases hc : q.1.length ≤ p.1.length
    · rw [if_pos hc]
      refine List.pairwise_cons.mpr ⟨?_, h⟩
      intro b hb
      rcases List.mem_cons.mp hb with rfl | hbt
      · exact hc
      · exact le_trans (hq b hbt) hc
    · rw [if_neg hc]
      refine List.pairwise_cons.mpr ⟨?_, ih ht⟩
      intro b hb
      rcases (insertByLen_mem p b t).mp hb with rfl | hbt
      · omega
      · exact hq b hbt

theorem sortByKeyLenDesc_sorted :
    ∀ l : List (Str × Str),
      List.Pairwise (fun x y => y.1.length ≤ x.1.length) (sortByKeyLenDesc l) := by
  intro l
  induction l with
  | nil => simp [sortByKeyLenDesc]
  | cons q t ih => exact insertByLen_pairwise q (sortByKeyLenDesc t) ih

theorem rewrite_in_text_no_key_occurrence
    (mapping : List (Str × Str)) (text : Str)
    (Hne : ∀ p ∈ mapping, p.1 ≠ [] ∧ p.2 ≠ [])
    (Hdisj : ∀ p ∈ mapping, ∀ q ∈ mapping, ∀ c ∈ p.2, c ∉ q.1) :
    ∀ p ∈ mapping, ¬ p.1 <:+: rewrite_in_text text mapping := by
  intro p hp
  exact replace_all_no_key_occurrence (sortByKeyLenDesc mapping) text
    (fun p2 hp2 => Hne p2 ((sortByKeyLenDesc_mem p2 mapping).mp hp2))
    (fun p2 hp2 q2 hq2 => Hdisj p2 ((sortByKeyLenDesc_mem p2 mapping).mp hp2)
      q2 ((sortByKeyLenDesc_mem q2 mapping).mp hq2))
    p ((sortByKeyLenDesc_mem p mapping).mpr hp)

-- ## Claim C1

/-- Claim C1 counterexample.  The claim asserts that for any mapping whose
keys do not occur in each other's replacement values, the rewrite operation
leaves zero occurrences of any key, with longer keys substituted first.
Both parts fail on the code.  (1) For the mapping ab maps to a, zz maps to w
(no key occurs in any replacement value) the rewritten text of "abb" is "ab",
which still contains the key "ab": the replacement value concatenated with
the following text recreates the key.  This affects `rewrite_in_text` and
`replace_all` alike.  (2) `replace_all` substitutes in mapping insertion
order, not longest-key-first: on "abc" with the mapping ab maps to X
(inserted first), abc maps to Y, it produces "Xc" — the shorter key "ab"
corrupted the occurrence of the longer key "abc", which was never replaced
by "Y". -/
theorem claim_C1_counterexample :
    (occursIn ("ab".toList) ("a".toList) = false
      ∧ occursIn ("ab".toList) ("w".toList) = false
      ∧ occursIn ("zz".toList) ("a".toList) = false
      ∧ occursIn ("zz".toList) ("w".toList) = false
      ∧ rewrite_in_text ("abb".toList) [("ab".toList, "a".toList), ("zz".toList, "w".toList)]
          = "ab".toList
      ∧ replace_all ("abb".toList) [("ab".toList, "a".toList), ("zz".toList, "w".toList)]
          = "ab".toList
      ∧ occursIn ("ab".toList) ("ab".toList) = true)
    ∧ (occursIn ("ab".toList) ("X".toList) = false
      ∧ occursIn ("ab".toList) ("Y".toList) = false
      ∧ occursIn ("abc".toList) ("X".toList) = false
      ∧ occursIn ("abc".toList) ("Y".toList) = false
      ∧ replace_all ("abc".toList) [("ab".toList, "X".toList), ("abc".toList, "Y".toList)]
          = "Xc".toList) := by
  constructor
  · exact ⟨by decide, by decide, by decide, by decide, by decide, by decide, by decide⟩
  · exact ⟨by decide, by decide, by decide, by decide, by decide⟩

/-- Claim C1 as amended.  `rewrite_in_text` substitutes keys in
non-increasing key-length order (longest first); `replace_all` substitutes
in mapping insertion order.  Under the strengthened hypothesis that every
key and every replacement value is nonempty and that no character of any
replacement value occurs in any key of the mapping, both operations return
text containing zero occurrences of any key of the mapping. -/
theorem claim_C1_amended :
    (∀ mapping : List (Str × Str),
      List.Pairwise (fun x y => y.1.length ≤ x.1.length) (sortByKeyLenDesc mapping))
    ∧ (∀ (mapping : List (Str × Str)) (text : Str),
        (∀ p ∈ mapping, p.1 ≠ [] ∧ p.2 ≠ []) →
        (∀ p ∈ mapping, ∀ q ∈ mapping, ∀ c ∈ p.2, c ∉ q.1) →
        (∀ p ∈ mapping, ¬ p.1 <:+: replace_all text mapping)
          ∧ (∀ p ∈ mapping, ¬ p.1 <:+: rewrite_in_text text mapping)) := by
  constructor
  · exact fun mapping => sortByKeyLenDesc_sorted mapping
  · intro mapping text Hne Hdisj
    exact ⟨replace_all_no_key_occurrence mapping text Hne Hdisj,
      rewrite_in_text_no_key_occurrence mapping text Hne Hdisj⟩

/-- Witness for the amended claim C1 at a concrete mapping and text. -/
theorem claim_C1_amended_witness :
    (∀ p ∈ [("URL".toList, "loc".toList)],
      ¬ p.1 <:+: replace_all ("xURLyURL".toList) [("URL".toList, "loc".toList)])
    ∧ (∀ p ∈ [("URL".toList, "loc".toList)],
      ¬ p.1 <:+: rewrite_in_text ("xURLyURL".toList) [("URL".toList, "loc".toList)]) :=
  claim_C1_amended.2 [("URL".toList, "loc".toList)] ("xURLyURL".toList)
    (by decide) (by decide)

-- ## Characters of URL components

theorem singleton_infix_iff_mem {c : Char} {l : Str} : c ∈ l ↔ [c] <:+: l := by
  constructor
  · intro h
    rcases List.append_of_mem h with ⟨s, t, rfl⟩
    exact ⟨s, t, by simp⟩
  · rintro ⟨a, b, rfl⟩
    simp

theorem occursIn_singleton_iff_mem {c : Char} {l : Str} :
    occursIn [c] l = true ↔ c ∈ l := by
  rw [occursIn_true_iff]
  exact singleton_infix_iff_mem.symm

theorem splitOnceAt_left_no_char (c : Char) (u : Str) : c ∉ (splitOnceAt c u).1 := by
  unfold splitOnceAt
  cases hf : findSub [c] u with
  | none =>
    intro hc
    exact findSub_none_no_occurrence hf (singleton_infix_iff_mem.mp hc)
  | some i =>
    intro hc
    simp only at hc
    exact not_infix_take_of_findSub (by simp) hf (singleton_infix_iff_mem.mp hc)

theorem splitOnceAt_left_subset (c : Char) (u : Str) :
    ∀ x ∈ (splitOnceAt c u).1, x ∈ u := by
  unfold splitOnceAt
  cases hf : findSub [c] u with
  | none => intro x hx; simpa using hx
  | some i =>
    intro x hx
    simp only at hx
    exact List.mem_of_mem_take hx

theorem urlsplit_path_no_query_char (u : Str) :
    '?' ∉ (urlsplit u).path ∧ '#' ∉ (urlsplit u).path := by
  unfold urlsplit
  simp only
  constructor
  · exact splitOnceAt_left_no_char '?' _
  · intro hc
    have hmem := splitOnceAt_left_subset '?' _ _ hc
    exact splitOnceAt_left_no_char '#' _ hmem

theorem mem_intercalate_of_mem (sep : Str) (c : Char) :
    ∀ (parts : List Str) (part : Str), part ∈ parts → c ∈ part →
      c ∈ sep.intercalate parts := by
  intro parts
  induction parts with
  | nil =>
    intro part hp
    simp at hp
  | cons q rest ih =>
    intro part hp hc
    cases rest with
    | nil =>
      have hq : part = q := by simpa using hp
      subst hq
      simpa [List.intercalate, List.intersperse] using hc
    | cons r t =>
      rcases List.mem_cons.mp hp with rfl | hrest
      · simp [List.intercalate, List.intersperse]
        exact Or.inl hc
      · have hrec := ih part hrest hc
        simp [List.intercalate, List.intersperse] at hrec ⊢
        tauto

theorem pathlibName_eq (p : Str) :
    pathlibName p =
      (match ((p.splitOn '/').filter (fun seg => !seg.isEmpty && !(seg == ['.']))).getLast? with
       | none => []
       | some n => n) := rfl

theorem pathlibName_subset {p : Str} {c : Char} (h : c ∈ pathlibName p) : c ∈ p := by
  rw [pathlibName_eq] at h
  cases hl : ((p.splitOn '/').filter (fun seg => !seg.isEmpty && !(seg == ['.']))).getLast? with
  | none =>
    rw [hl] at h
    simp at h
  | some n =>
    rw [hl] at h
    simp only at h
    have hn : n ∈ (p.splitOn '/').filter (fun seg => !seg.isEmpty && !(seg == ['.'])) :=
      List.mem_of_getLast?_eq_some hl
    have hn2 : n ∈ p.splitOn '/' := List.mem_of_mem_filter hn
    have hin := mem_intercalate_of_mem ['/'] c (p.splitOn '/') n hn2 h
    rwa [List.intercalate_splitOn] at hin

-- ## hashed_name_from_url characterization (mirror variant)

theorem occursIn_eq_false_of_not_mem {c : Char} {l : Str} (h : c ∉ l) :
    occursIn [c] l = false := by
  rw [Bool.eq_false_iff]
  intro hocc
  exact h (occursIn_singleton_iff_mem.mp hocc)

theorem hashed_name_from_url_def (url : Str) :
    hashed_name_from_url url =
      (let base1 := if pathlibName (urlsplit url).path = []
          then ('a' :: 's' :: 's' :: 'e' :: 't' :: []) else pathlibName (urlsplit url).path
       let base2 := if occursIn ['?'] base1 then takeBeforeChar '?' base1 else base1
       let base3 := if occursIn ['#'] base2 then takeBeforeChar '#' base2 else base2
       if base3 = [] then
         ('a' :: 's' :: 's' :: 'e' :: 't' :: '-' :: []) ++ (sha1hexdigest (strBytes url)).take 8
       else base3) := rfl

theorem hashed_name_from_url_eq (url : Str) :
    hashed_name_from_url url =
      (if pathlibName (urlsplit url).path = [] then ('a' :: 's' :: 's' :: 'e' :: 't' :: [])
       else pathlibName (urlsplit url).path) := by
  have hq : '?' ∉ (urlsplit url).path := (urlsplit_path_no_query_char url).1
  have hh : '#' ∉ (urlsplit url).path := (urlsplit_path_no_query_char url).2
  rw [hashed_name_from_url_def]
  by_cases hb : pathlibName (urlsplit url).path = []
  · have e1 : occursIn ['?'] ('a' :: 's' :: 's' :: 'e' :: 't' :: []) = false := by decide
    have e2 : occursIn ['#'] ('a' :: 's' :: 's' :: 'e' :: 't' :: []) = false := by decide
    simp [hb, e1, e2]
  · have h1 : '?' ∉ pathlibName (urlsplit url).path := fun hc => hq (pathlibName_subset hc)
    have h2 : '#' ∉ pathlibName (urlsplit url).path := fun hc => hh (pathlibName_subset hc)
    simp [hb, occursIn_eq_false_of_not_mem h1, occursIn_eq_false_of_not_mem h2]

theorem hashed_name_fallback_reached_def (url : Str) :
    hashed_name_fallback_reached url =
      (let base1 := if pathlibName (urlsplit url).path = []
          then ('a' :: 's' :: 's' :: 'e' :: 't' :: []) else pathlibName (urlsplit url).path
       let base2 := if occursIn ['?'] base1 then takeBeforeChar '?' base1 else base1
       let base3 := if occursIn ['#'] base2 then takeBeforeChar '#' base2 else base2
       base3 == []) := rfl

theorem hashed_name_fallback_never (url : Str) :
    hashed_name_fallback_reached url = false := by
  have hq : '?' ∉ (urlsplit url).path := (urlsplit_path_no_query_char url).1
  have hh : '#' ∉ (urlsplit url).path := (urlsplit_path_no_query_char url).2
  rw [hashed_name_fallback_reached_def]
  by_cases hb : pathlibName (urlsplit url).path = []
  · have e1 : occursIn ['?'] ('a' :: 's' :: 's' :: 'e' :: 't' :: []) = false := by decide
    have e2 : occursIn ['#'] ('a' :: 's' :: 's' :: 'e' :: 't' :: []) = false := by decide
    simp [hb, e1, e2]
  · have h1 : '?' ∉ pathlibName (urlsplit url).path := fun hc => hq (pathlibName_subset hc)
    have h2 : '#' ∉ pathlibName (urlsplit url).path := fun hc => hh (pathlibName_subset hc)
    simp [hb, occursIn_eq_false_of_not_mem h1, occursIn_eq_false_of_not_mem h2]

-- ## Claim C8

/-- Claim C8: the mirror variant's `hashed_name_from_url` returns the bare
final path segment (`asset` when empty), ignoring the query string and
fragment — any two URLs with the same parsed path get the same name — and
the hash-suffix fallback branch is never reached. -/
theorem claim_C8 (url url2 : Str)
    (hpath : (urlsplit url).path = (urlsplit url2).path) :
    (hashed_name_from_url url =
      (if pathlibName (urlsplit url).path = [] then ('a' :: 's' :: 's' :: 'e' :: 't' :: [])
       else pathlibName (urlsplit url).path))
    ∧ hashed_name_from_url url = hashed_name_from_url url2
    ∧ hashed_name_fallback_reached url = false := by
  refine ⟨hashed_name_from_url_eq url, ?_, hashed_name_fallback_never url⟩
  rw [hashed_name_from_url_eq url, hashed_name_from_url_eq url2, hpath]

/-- Witness for claim C8: two URLs sharing the path `/images/pic.png` but
with different query strings receive the same local name. -/
theorem claim_C8_witness :
    hashed_name_from_url ("https://framerusercontent.com/images/pic.png?v=1".toList)
      = hashed_name_from_url ("https://framerusercontent.com/images/pic.png?v=2&w=9".toList) :=
  (claim_C8 ("https://framerusercontent.com/images/pic.png?v=1".toList)
    ("https://framerusercontent.com/images/pic.png?v=2&w=9".toList) (by decide)).2.1

-- ## filename_from_url characterization (framer_localize variant)

theorem filename_from_url_def (url pe : Str) :
    filename_from_url url pe =
      (if (urlsplit url).query ≠ [] then
        (splitext (fnameBase url)).1 ++ '.' :: (short_hash url ++ fnameExt url pe)
       else (splitext (fnameBase url)).1 ++ fnameExt url pe) := rfl

theorem fnameBase_congr {u1 u2 : Str} (h : (urlsplit u1).path = (urlsplit u2).path) :
    fnameBase u1 = fnameBase u2 := by
  unfold fnameBase
  rw [h]

theorem fnameExt_congr {u1 u2 : Str} (pe : Str)
    (h : (urlsplit u1).path = (urlsplit u2).path) :
    fnameExt u1 pe = fnameExt u2 pe := by
  unfold fnameExt
  rw [fnameBase_congr h]

-- ## Claim C2

/-- Claim C2 counterexample.  The claim asserts that two URLs with identical
paths and different query strings always map to two distinct local
filenames.  The disambiguator is only the first six hex characters of a
SHA-1 digest, which can collide: these two URLs share the path
`/images/pic.png`, both carry (different) query strings, yet
`filename_from_url` maps them to the same name `pic.723dbd.png`. -/
theorem claim_C2_counterexample :
    (urlsplit ("https://framerusercontent.com/images/pic.png?v=1237".toList)).path
      = (urlsplit ("https://framerusercontent.com/images/pic.png?v=2217".toList)).path
    ∧ (urlsplit ("https://framerusercontent.com/images/pic.png?v=1237".toList)).query ≠ []
    ∧ (urlsplit ("https://framerusercontent.com/images/pic.png?v=2217".toList)).query ≠ []
    ∧ (urlsplit ("https://framerusercontent.com/images/pic.png?v=1237".toList)).query
      ≠ (urlsplit ("https://framerusercontent.com/images/pic.png?v=2217".toList)).query
    ∧ filename_from_url ("https://framerusercontent.com/images/pic.png?v=1237".toList) []
      = filename_from_url ("https://framerusercontent.com/images/pic.png?v=2217".toList) []
    ∧ filename_from_url ("https://framerusercontent.com/images/pic.png?v=1237".toList) []
      = "pic.723dbd.png".toList := by
  refine ⟨by decide, by decide, by decide, by decide, by decide, by decide⟩

/-- Claim C2 as amended: with identical parsed paths and the same preferred
extension hint, two URLs with no query string map to the same filename; a
URL with a query string and one without map to distinct filenames; and two
URLs that both carry query strings map to distinct filenames whenever their
6-character digests differ (digest collisions give the same filename, as the
counterexample shows). -/
theorem claim_C2_amended (u1 u2 pe : Str)
    (hpath : (urlsplit u1).path = (urlsplit u2).path) :
    ((urlsplit u1).query = [] ∧ (urlsplit u2).query = [] →
      filename_from_url u1 pe = filename_from_url u2 pe)
    ∧ ((urlsplit u1).query ≠ [] ∧ (urlsplit u2).query = [] →
      filename_from_url u1 pe ≠ filename_from_url u2 pe)
    ∧ ((urlsplit u1).query ≠ [] ∧ (urlsplit u2).query ≠ [] ∧ short_hash u1 ≠ short_hash u2 →
      filename_from_url u1 pe ≠ filename_from_url u2 pe) := by
  refine ⟨?_, ?_, ?_⟩
  · rintro ⟨hq1, hq2⟩
    rw [filename_from_url_def u1 pe, filename_from_url_def u2 pe,
      fnameBase_congr hpath, fnameExt_congr pe hpath, hq1, hq2]
    simp
  · rintro ⟨hq1, hq2⟩ heq
    rw [filename_from_url_def u1 pe, filename_from_url_def u2 pe,
      fnameBase_congr hpath, fnameExt_congr pe hpath, hq2] at heq
    rw [if_pos hq1] at heq
    simp only [ne_eq, not_true_eq_false, if_false] at heq
    have hlen := congrArg List.length heq
    simp only [List.length_append, List.length_cons] at hlen
    omega
  · rintro ⟨hq1, hq2, hsh⟩ heq
    rw [filename_from_url_def u1 pe, filename_from_url_def u2 pe,
      fnameBase_congr hpath, fnameExt_congr pe hpath] at heq
    rw [if_pos hq1, if_pos hq2] at heq
    have h2 := List.append_cancel_left heq
    have h3 : short_hash u1 ++ fnameExt u2 pe = short_hash u2 ++ fnameExt u2 pe := by
      injection h2
    exact hsh (List.append_cancel_right h3)

/-- Witness for the amended claim C2: same path, query on exactly one side
gives distinct filenames. -/
theorem claim_C2_amended_witness :
    filename_from_url ("https://cdn.framer.com/a/pic.png?scale=2".toList) []
      ≠ filename_from_url ("https://cdn.framer.com/a/pic.png".toList) [] :=
  (claim_C2_amended ("https://cdn.framer.com/a/pic.png?scale=2".toList)
    ("https://cdn.framer.com/a/pic.png".toList) [] (by decide)).2.1 ⟨by decide, by decide⟩

-- ## Download caching and failure behaviour

theorem download_cached (net : Str → Option Str) (fs : FS) (url dest : Str) (dry : Bool)
    (hex : fs.hasFile dest = true) :
    download net fs url dest dry = (true, fs, []) := by
  unfold download
  simp [hex]

theorem mirror_download_cached (net : Str → MirrorResp) (fs : FS) (url : Str)
    (only_framer : Bool) (hurl : is_http_url url = true)
    (hof : (only_framer && !host_looks_like_framer url) = false)
    (hex : fs.hasFile
      (ensure_unique_path fs (choose_local_dir url) (hashed_name_from_url url)) = true) :
    mirror_download net fs url only_framer =
      (some (ensure_unique_path fs (choose_local_dir url) (hashed_name_from_url url)),
        fs, []) := by
  unfold mirror_download
  have h1 : (only_framer && is_http_url url && !host_looks_like_framer url) = false := by
    rw [hurl]
    rw [Bool.and_true]
    exact hof
  rw [h1]
  simp only [Bool.false_eq_true, if_false, hurl, Bool.not_true, if_false]
  simp [hex]

/-- Claim C5: an already-present destination short-circuits both fetchers:
success is returned, no network request is made, and the filesystem is left
exactly as it was. -/
theorem claim_C5 :
    (∀ (net : Str → Option Str) (fs : FS) (url dest : Str) (dry : Bool),
      fs.hasFile dest = true → download net fs url dest dry = (true, fs, []))
    ∧ (∀ (net : Str → MirrorResp) (fs : FS) (url : Str) (only_framer : Bool),
      is_http_url url = true →
      (only_framer && !host_looks_like_framer url) = false →
      fs.hasFile
        (ensure_unique_path fs (choose_local_dir url) (hashed_name_from_url url)) = true →
      mirror_download net fs url only_framer =
        (some (ensure_unique_path fs (choose_local_dir url) (hashed_name_from_url url)),
          fs, [])) :=
  ⟨download_cached, mirror_download_cached⟩

/-- Witness for claim C5 with a one-file filesystem and an oracle that would
fail any request actually made. -/
theorem claim_C5_witness :
    download (fun _ => none) ⟨[("assets/images/pic.png".toList, "BYTES".toList)], []⟩
      ("https://framerusercontent.com/images/pic.png".toList)
      ("assets/images/pic.png".toList) false
      = (true, ⟨[("assets/images/pic.png".toList, "BYTES".toList)], []⟩, [])
    ∧ mirror_download (fun _ => MirrorResp.connErr)
      ⟨[("assets/images/pic.png".toList, "BYTES".toList)], []⟩
      ("https://framerusercontent.com/images/pic.png".toList) false
      = (some ("assets/images/pic.png".toList),
          ⟨[("assets/images/pic.png".toList, "BYTES".toList)], []⟩, []) := by
  constructor
  · exact claim_C5.1 (fun _ => none) ⟨[("assets/images/pic.png".toList, "BYTES".toList)], []⟩
      ("https://framerusercontent.com/images/pic.png".toList)
      ("assets/images/pic.png".toList) false (by decide)
  · have h := claim_C5.2 (fun _ => MirrorResp.connErr)
      ⟨[("assets/images/pic.png".toList, "BYTES".toList)], []⟩
      ("https://framerusercontent.com/images/pic.png".toList) false
      (by decide) (by decide) (by decide)
    have he : ensure_unique_path ⟨[("assets/images/pic.png".toList, "BYTES".toList)], []⟩
        (choose_local_dir ("https://framerusercontent.com/images/pic.png".toList))
        (hashed_name_from_url ("https://framerusercontent.com/images/pic.png".toList))
        = "assets/images/pic.png".toList := by decide
    rw [he] at h
    exact h

theorem download_failed (net : Str → Option Str) (fs : FS) (url dest : Str)
    (hex : fs.hasFile dest = false) (hnet : net url = none) :
    download net fs url dest false =
      (false, fs, [Effect.netget url,
        Effect.out ("  ERROR: download failed ".toList ++ url)]) := by
  unfold download
  simp [hex, hnet]

theorem mirror_download_err (net : Str → MirrorResp) (fs : FS) (url : Str)
    (only_framer : Bool) (hurl : is_http_url url = true)
    (hof : (only_framer && !host_looks_like_framer url) = false)
    (hex : fs.hasFile
      (ensure_unique_path fs (choose_local_dir url) (hashed_name_from_url url)) = false)
    (herr : net url = MirrorResp.connErr ∨ net url = MirrorResp.statusErr) :
    mirror_download net fs url only_framer =
      (none, fs, [Effect.netget url, Effect.out ("warn failed ".toList ++ url)]) := by
  unfold mirror_download
  have h1 : (only_framer && is_http_url url && !host_looks_like_framer url) = false := by
    rw [hurl, Bool.and_true]
    exact hof
  rw [h1]
  simp only [Bool.false_eq_true, if_false, hurl, Bool.not_true, if_false]
  rcases herr with h | h <;> simp [hex, h]

-- ## Every discovered URL is processed (mapping completeness)

theorem processImgStep_mapping (net : Str → Option Str) (d n : Bool)
    (st : ProcState) (url : Str) :
    ∃ v, (processImgStep net d n st url).mapping = st.mapping ++ [(url, v)] := by
  unfold processImgStep
  split
  · dsimp only
    split
    · exact ⟨_, rfl⟩
    · exact ⟨_, rfl⟩
  · exact ⟨_, rfl⟩

theorem processMjsStep_mapping (net : Str → Option Str) (d n : Bool)
    (st : ProcState) (url : Str) :
    ∃ v, (processMjsStep net d n st url).mapping = st.mapping ++ [(url, v)] := by
  unfold processMjsStep
  split
  · dsimp only
    split
    · exact ⟨_, rfl⟩
    · exact ⟨_, rfl⟩
  · exact ⟨_, rfl⟩

theorem processEventStep_mapping (net : Str → Option Str) (d n : Bool)
    (st : ProcState) (url : Str) :
    ∃ v, (processEventStep net d n st url).mapping = st.mapping ++ [(url, v)] := by
  unfold processEventStep
  split
  · exact ⟨_, rfl⟩
  · exact ⟨_, rfl⟩

theorem foldl_mapping_mono (f : ProcState → Str → ProcState)
    (hf : ∀ st u, ∃ v, (f st u).mapping = st.mapping ++ [(u, v)]) :
    ∀ (urls : List Str) (st : ProcState),
      ∃ ext, (urls.foldl f st).mapping = st.mapping ++ ext := by
  intro urls
  induction urls with
  | nil => intro st; exact ⟨[], by simp⟩
  | cons a t ih =>
    intro st
    rcases hf st a with ⟨v, hv⟩
    rcases ih (f st a) with ⟨ext, hext⟩
    refine ⟨[(a, v)] ++ ext, ?_⟩
    show (t.foldl f (f st a)).mapping = _
    rw [hext, hv]
    simp

theorem foldl_mapping_complete (f : ProcState → Str → ProcState)
    (hf : ∀ st u, ∃ v, (f st u).mapping = st.mapping ++ [(u, v)]) :
    ∀ (urls : List Str) (st : ProcState) (u : Str), u ∈ urls →
      ∃ v, (u, v) ∈ (urls.foldl f st).mapping := by
  intro urls
  induction urls with
  | nil =>
    intro st u hu
    simp at hu
  | cons a t ih =>
    intro st u hu
    rcases List.mem_cons.mp hu with rfl | hut
    · rcases hf st u with ⟨v, hv⟩
      rcases foldl_mapping_mono f hf t (f st u) with ⟨ext, hext⟩
      refine ⟨v, ?_⟩
      show (u, v) ∈ (t.foldl f (f st u)).mapping
      rw [hext, hv]
      simp
    · exact ih (f st a) u hut

theorem process_file_mapping_eq (net : Str → Option Str)
    (d n k r : Bool) (fpath : Str) (isHtml : Bool) (txt : Str)
    (iu mu eu : List Str) (lm : List (Str × Str)) (fs : FS) :
    (process_file net d n k r fpath isHtml txt iu mu eu lm fs).2.mapping
      = (process_assets net d n k iu mu eu fs).mapping := by
  unfold process_file
  dsimp only
  repeat' split
  all_goals rfl

theorem mapping_mem_assetsStage2 (net : Str → Option Str) (d n : Bool)
    (mu : List Str) (st1 : ProcState) (x : Str × Str) (hx : x ∈ st1.mapping) :
    x ∈ (assetsStage2 net d n mu st1).mapping := by
  unfold assetsStage2
  by_cases h : mu = []
  · simp [h]
    exact hx
  · rw [if_pos h]
    rcases foldl_mapping_mono _ (processMjsStep_mapping net d n) mu
      { st1 with
          fs := st1.fs.mkdirp ASSETS_JS_DIR
          effects := st1.effects ++ [Effect.mkdirp ASSETS_JS_DIR] } with ⟨ext, hext⟩
    rw [hext]
    exact List.mem_append_left _ hx

theorem mapping_mem_assetsStage3 (net : Str → Option Str) (d n k : Bool)
    (eu : List Str) (st2 : ProcState) (x : Str × Str) (hx : x ∈ st2.mapping) :
    x ∈ (assetsStage3 net d n k eu st2).mapping := by
  unfold assetsStage3
  by_cases h : (!k) = true
  · rw [if_pos h]
    rcases foldl_mapping_mono _ (processEventStep_mapping net d n) eu st2 with ⟨ext, hext⟩
    rw [hext]
    exact List.mem_append_left _ hx
  · rw [if_neg h]
    exact hx

theorem process_assets_mapping_complete (net : Str → Option Str)
    (d n k : Bool) (iu mu eu : List Str) (fs : FS) :
    (∀ u ∈ iu, ∃ v, (u, v) ∈ (process_assets net d n k iu mu eu fs).mapping)
    ∧ (∀ u ∈ mu, ∃ v, (u, v) ∈ (process_assets net d n k iu mu eu fs).mapping)
    ∧ (k = false → ∀ u ∈ eu, ∃ v, (u, v) ∈ (process_assets net d n k iu mu eu fs).mapping) := by
  refine ⟨?_, ?_, ?_⟩
  · intro u hu
    have hne : iu ≠ [] := by
      intro he
      rw [he] at hu
      simp at hu
    have h1 : ∃ v, (u, v) ∈ (assetsStage1 net d n iu fs).mapping := by
      unfold assetsStage1
      rw [if_pos hne]
      exact foldl_mapping_complete _ (processImgStep_mapping net d n) iu _ u hu
    rcases h1 with ⟨v, hv⟩
    exact ⟨v, mapping_mem_assetsStage3 net d n k eu _ _
      (mapping_mem_assetsStage2 net d n mu _ _ hv)⟩
  · intro u hu
    have hne : mu ≠ [] := by
      intro he
      rw [he] at hu
      simp at hu
    have h1 : ∃ v, (u, v) ∈ (assetsStage2 net d n mu (assetsStage1 net d n iu fs)).mapping := by
      unfold assetsStage2
      rw [if_pos hne]
      exact foldl_mapping_complete _ (processMjsStep_mapping net d n) mu _ u hu
    rcases h1 with ⟨v, hv⟩
    exact ⟨v, mapping_mem_assetsStage3 net d n k eu _ _ hv⟩
  · intro hk u hu
    show ∃ v, (u, v) ∈ (assetsStage3 net d n k eu _).mapping
    unfold assetsStage3
    rw [hk]
    simp only [Bool.not_false, if_pos]
    exact foldl_mapping_complete _ (processEventStep_mapping net d n) eu _ u hu

-- ## Claim C4

/-- Claim C4 counterexample.  The claim says a network error leaves no
partial file on disk at the destination.  That holds for the
framer_localize fetcher (the body is fully buffered before any write), but
the mirror fetcher streams the body into the open destination file: a
network error raised during `iter_content`, after a first chunk was
written, is caught and reported as failure — yet the partially written file
remains at the destination. -/
theorem claim_C4_counterexample :
    (mirror_download (fun _ => MirrorResp.body ["PARTIAL".toList] true) ⟨[], []⟩
      ("https://framerusercontent.com/images/pic.png".toList) false).1 = none
    ∧ ((mirror_download (fun _ => MirrorResp.body ["PARTIAL".toList] true) ⟨[], []⟩
      ("https://framerusercontent.com/images/pic.png".toList) false).2.1).getFile
        ("assets/images/pic.png".toList) = some ("PARTIAL".toList) := by
  exact ⟨by decide, by decide⟩

/-- Claim C4 as amended: a fetch failure is caught and reported, returns
failure for that single URL only, and every other discovered URL is still
processed.  For the framer_localize fetcher the filesystem is left
untouched (no partial file); for the mirror fetcher the same holds for
connection errors and non-success statuses, but not for mid-body streaming
errors (see the counterexample). -/
theorem claim_C4_amended :
    (∀ (net : Str → Option Str) (fs : FS) (url dest : Str),
      fs.hasFile dest = false → net url = none →
      download net fs url dest false =
        (false, fs, [Effect.netget url,
          Effect.out ("  ERROR: download failed ".toList ++ url)]))
    ∧ (∀ (net : Str → MirrorResp) (fs : FS) (url : Str) (only_framer : Bool),
      is_http_url url = true →
      (only_framer && !host_looks_like_framer url) = false →
      fs.hasFile
        (ensure_unique_path fs (choose_local_dir url) (hashed_name_from_url url)) = false →
      (net url = MirrorResp.connErr ∨ net url = MirrorResp.statusErr) →
      mirror_download net fs url only_framer =
        (none, fs, [Effect.netget url, Effect.out ("warn failed ".toList ++ url)]))
    ∧ (∀ (net : Str → Option Str) (d n k : Bool) (iu mu eu : List Str) (fs : FS),
      (∀ u ∈ iu, ∃ v, (u, v) ∈ (process_assets net d n k iu mu eu fs).mapping)
      ∧ (∀ u ∈ mu, ∃ v, (u, v) ∈ (process_assets net d n k iu mu eu fs).mapping)
      ∧ (k = false →
          ∀ u ∈ eu, ∃ v, (u, v) ∈ (process_assets net d n k iu mu eu fs).mapping)) :=
  ⟨download_failed, mirror_download_err,
    fun net d n k iu mu eu fs => process_assets_mapping_complete net d n k iu mu eu fs⟩

/-- Witness for the amended claim C4: a failing URL is reported as failed
with nothing written, and a second URL in the same run still gets its
mapping entry. -/
theorem claim_C4_amended_witness :
    download (fun _ => none) ⟨[], []⟩ ("https://framerusercontent.com/a.png".toList)
      ("assets/images/a.png".toList) false
      = (false, ⟨[], []⟩,
          [Effect.netget ("https://framerusercontent.com/a.png".toList),
           Effect.out ("  ERROR: download failed ".toList
             ++ "https://framerusercontent.com/a.png".toList)])
    ∧ (∃ v, (("https://framerusercontent.com/b.png".toList), v) ∈
        (process_assets (fun _ => none) false false false
          ["https://framerusercontent.com/a.png".toList,
           "https://framerusercontent.com/b.png".toList] [] [] ⟨[], []⟩).mapping) := by
  constructor
  · exact claim_C4_amended.1 (fun _ => none) ⟨[], []⟩
      ("https://framerusercontent.com/a.png".toList)
      ("assets/images/a.png".toList) (by decide) rfl
  · exact (claim_C4_amended.2.2 (fun _ => none) false false false
      ["https://framerusercontent.com/a.png".toList,
       "https://framerusercontent.com/b.png".toList] [] [] ⟨[], []⟩).1
      ("https://framerusercontent.com/b.png".toList) (by decide)

-- ## Dry-run purity

theorem FS.mkdirp_files (fs : FS) (d : Str) : (fs.mkdirp d).files = fs.files := by
  unfold FS.mkdirp
  split
  · rfl
  · rfl

theorem pureEffects_append (a b : List Effect) :
    pureEffects (a ++ b) = (pureEffects a && pureEffects b) := by
  unfold pureEffects
  exact List.all_append

theorem download_dry (net : Str → Option Str) (fs : FS) (url dest : Str) :
    (download net fs url dest true).1 = true
    ∧ (download net fs url dest true).2.1 = fs
    ∧ pureEffects (download net fs url dest true).2.2 = true := by
  unfold download
  by_cases h : fs.hasFile dest = true
  · simp [h, pureEffects]
  · simp [h, pureEffects, Effect.isWrite, Effect.isNet]

theorem processImgStep_dry (net : Str → Option Str) (n : Bool)
    (st : ProcState) (url : Str) :
    (processImgStep net true n st url).fs.files = st.fs.files
    ∧ ∃ e2, (processImgStep net true n st url).effects = st.effects ++ e2
        ∧ pureEffects e2 = true := by
  unfold processImgStep
  split
  · dsimp only
    split
    · exact ⟨rfl, [], by simp, by decide⟩
    · exact ⟨rfl, [], by simp, by decide⟩
  · dsimp only
    refine ⟨?_, (download net st.fs url _ true).2.2, rfl, (download_dry net st.fs url _).2.2⟩
    rw [(download_dry net st.fs url _).2.1]

theorem processMjsStep_dry (net : Str → Option Str) (n : Bool)
    (st : ProcState) (url : Str) :
    (processMjsStep net true n st url).fs.files = st.fs.files
    ∧ ∃ e2, (processMjsStep net true n st url).effects = st.effects ++ e2
        ∧ pureEffects e2 = true := by
  unfold processMjsStep
  split
  · dsimp only
    split
    · exact ⟨rfl, [], by simp, by decide⟩
    · exact ⟨rfl, [], by simp, by decide⟩
  · dsimp only
    refine ⟨?_, (download net st.fs url _ true).2.2, rfl, (download_dry net st.fs url _).2.2⟩
    rw [(download_dry net st.fs url _).2.1]

theorem processEventStep_dry (net : Str → Option Str) (n : Bool)
    (st : ProcState) (url : Str) :
    (processEventStep net true n st url).fs.files = st.fs.files
    ∧ ∃ e2, (processEventStep net true n st url).effects = st.effects ++ e2
        ∧ pureEffects e2 = true := by
  unfold processEventStep
  dsimp only
  split
  · constructor
    · rw [(download_dry net (st.fs.mkdirp ASSETS_JS_DIR) url
        (ASSETS_JS_DIR ++ '/' :: "events-script-v2.js".toList)).2.1]
      exact FS.mkdirp_files st.fs ASSETS_JS_DIR
    · refine ⟨[Effect.mkdirp ASSETS_JS_DIR]
        ++ (download net (st.fs.mkdirp ASSETS_JS_DIR) url
          (ASSETS_JS_DIR ++ '/' :: "events-script-v2.js".toList) true).2.2, by simp, ?_⟩
      rw [pureEffects_append]
      rw [(download_dry net (st.fs.mkdirp ASSETS_JS_DIR) url
        (ASSETS_JS_DIR ++ '/' :: "events-script-v2.js".toList)).2.2]
      decide
  · exact ⟨FS.mkdirp_files st.fs ASSETS_JS_DIR,
      [Effect.mkdirp ASSETS_JS_DIR], by simp, by decide⟩

theorem foldl_dry_inv (f : ProcState → Str → ProcState)
    (hf : ∀ st u, (f st u).fs.files = st.fs.files
      ∧ ∃ e2, (f st u).effects = st.effects ++ e2 ∧ pureEffects e2 = true) :
    ∀ (urls : List Str) (st : ProcState),
      (urls.foldl f st).fs.files = st.fs.files
      ∧ ∃ e2, (urls.foldl f st).effects = st.effects ++ e2 ∧ pureEffects e2 = true := by
  intro urls
  induction urls with
  | nil => intro st; exact ⟨rfl, [], by simp, by decide⟩
  | cons a t ih =>
    intro st
    rcases hf st a with ⟨hfs, e2, he2, hp2⟩
    rcases ih (f st a) with ⟨hfs2, e3, he3, hp3⟩
    constructor
    · show (t.foldl f (f st a)).fs.files = _
      rw [hfs2, hfs]
    · refine ⟨e2 ++ e3, ?_, ?_⟩
      · show (t.foldl f (f st a)).effects = _
        rw [he3, he2]
        simp
      · rw [pureEffects_append, hp2, hp3]
        rfl

theorem process_assets_dry (net : Str → Option Str) (n k : Bool)
    (iu mu eu : List Str) (fs : FS) :
    (process_assets net true n k iu mu eu fs).fs.files = fs.files
    ∧ pureEffects (process_assets net true n k iu mu eu fs).effects = true := by
  unfold process_assets
  have hst1 : (assetsStage1 net true n iu fs).fs.files = fs.files
      ∧ pureEffects (assetsStage1 net true n iu fs).effects = true := by
    unfold assetsStage1
    split
    · rcases foldl_dry_inv _ (processImgStep_dry net n) iu _ with ⟨hfs, e2, he2, hp2⟩
      constructor
      · rw [hfs]
        exact FS.mkdirp_files fs ASSETS_IMG_DIR
      · rw [he2]
        simp only
        rw [show ((([] : List Effect) ++ [Effect.mkdirp ASSETS_IMG_DIR]) ++ e2)
            = [Effect.mkdirp ASSETS_IMG_DIR] ++ e2 by simp]
        rw [pureEffects_append, hp2]
        decide
    · exact ⟨rfl, rfl⟩
  have hst2 : (assetsStage2 net true n mu (assetsStage1 net true n iu fs)).fs.files = fs.files
      ∧ pureEffects (assetsStage2 net true n mu (assetsStage1 net true n iu fs)).effects
        = true := by
    unfold assetsStage2
    split
    · rcases foldl_dry_inv _ (processMjsStep_dry net n) mu _ with ⟨hfs, e2, he2, hp2⟩
      constructor
      · rw [hfs]
        simp only
        rw [FS.mkdirp_files]
        exact hst1.1
      · rw [he2]
        simp only
        rw [show ((assetsStage1 net true n iu fs).effects ++ [Effect.mkdirp ASSETS_JS_DIR] ++ e2)
            = (assetsStage1 net true n iu fs).effects ++ ([Effect.mkdirp ASSETS_JS_DIR] ++ e2)
          by simp]
        rw [pureEffects_append, hst1.2, pureEffects_append, hp2]
        decide
    · exact hst1
  unfold assetsStage3
  split
  · rcases foldl_dry_inv _ (processEventStep_dry net n) eu _ with ⟨hfs, e2, he2, hp2⟩
    constructor
    · rw [hfs]
      exact hst2.1
    · rw [he2, pureEffects_append, hst2.2, hp2]
      rfl
  · exact hst2

theorem process_file_dry (net : Str → Option Str) (n k r : Bool)
    (fpath : Str) (isHtml : Bool) (txt : Str) (iu mu eu : List Str)
    (lm : List (Str × Str)) (fs : FS) :
    (process_file net true n k r fpath isHtml txt iu mu eu lm fs).1 = false
    ∧ (process_file net true n k r fpath isHtml txt iu mu eu lm fs).2.fs
        = (process_assets net true n k iu mu eu fs).fs
    ∧ (process_file net true n k r fpath isHtml txt iu mu eu lm fs).2.effects
        = (process_assets net true n k iu mu eu fs).effects := by
  unfold process_file
  dsimp only
  have hlc : (r && isHtml && !true && !(rewriteLinks lm txt == txt)) = false := by
    simp
  simp only [hlc]
  split
  · simp
  · simp

-- ## Claim C3

/-- Claim C3 counterexample.  The claim says preview mode performs no
filesystem writes at all, including no directory creation.  But
`process_file` calls `ensure_dir(ASSETS_IMG_DIR)` as soon as any image URL
is discovered, before consulting `args.dry_run`: on an empty filesystem a
dry run over one image URL emits a mkdir effect and leaves the directory
created. -/
theorem claim_C3_counterexample :
    ((process_file (fun _ => none) true false false false ("index.html".toList) true
      ("TXT".toList) ["https://framerusercontent.com/images/pic.png".toList] [] [] []
      ⟨[], []⟩).2.effects).any Effect.isMkdir = true
    ∧ ((process_file (fun _ => none) true false false false ("index.html".toList) true
      ("TXT".toList) ["https://framerusercontent.com/images/pic.png".toList] [] [] []
      ⟨[], []⟩).2.fs).dirs = [ASSETS_IMG_DIR] := by
  exact ⟨by decide, by decide⟩

/-- Claim C3 as amended: in preview (dry-run) mode, processing performs no
file write and no network request — the file table is returned untouched,
every effect in the trace is neither a write nor a fetch, and the changed
flag is false — and the fetcher reports the intended download and returns
success; however, the asset category directories are still created when
matching URLs are discovered (see the counterexample). -/
theorem claim_C3_amended (net : Str → Option Str) (n k r : Bool)
    (fpath : Str) (isHtml : Bool) (txt : Str) (iu mu eu : List Str)
    (lm : List (Str × Str)) (fs : FS) :
    (process_file net true n k r fpath isHtml txt iu mu eu lm fs).2.fs.files = fs.files
    ∧ pureEffects (process_file net true n k r fpath isHtml txt iu mu eu lm fs).2.effects
        = true
    ∧ (process_file net true n k r fpath isHtml txt iu mu eu lm fs).1 = false
    ∧ (∀ (net2 : Str → Option Str) (fs2 : FS) (url dest : Str),
        fs2.hasFile dest = false →
        download net2 fs2 url dest true =
          (true, fs2, [Effect.out ("  DRYRUN: would download -> ".toList ++ dest)])) := by
  rcases process_file_dry net n k r fpath isHtml txt iu mu eu lm fs with ⟨hflag, hfs, heff⟩
  rcases process_assets_dry net n k iu mu eu fs with ⟨hfiles, hpure⟩
  refine ⟨?_, ?_, hflag, ?_⟩
  · rw [hfs]
    exact hfiles
  · rw [heff]
    exact hpure
  · intro net2 fs2 url dest hex
    unfold download
    simp [hex]

/-- Witness for the amended claim C3 at a concrete dry run. -/
theorem claim_C3_amended_witness :
    ((process_file (fun _ => none) true false false false ("index.html".toList) true
      ("TXT".toList) ["https://framerusercontent.com/images/pic.png".toList] [] [] []
      ⟨[], []⟩).2.fs.files = (⟨[], []⟩ : FS).files)
    ∧ download (fun _ => none) ⟨[], []⟩ ("https://framerusercontent.com/images/pic.png".toList)
        ("assets/images/pic.png".toList) true
      = (true, ⟨[], []⟩,
          [Effect.out ("  DRYRUN: would download -> ".toList
            ++ "assets/images/pic.png".toList)]) := by
  constructor
  · exact (claim_C3_amended (fun _ => none) false false false ("index.html".toList) true
      ("TXT".toList) ["https://framerusercontent.com/images/pic.png".toList] [] [] []
      ⟨[], []⟩).1
  · exact (claim_C3_amended (fun _ => none) false false false ("index.html".toList) true
      ("TXT".toList) ["https://framerusercontent.com/images/pic.png".toList] [] [] []
      ⟨[], []⟩).2.2.2 (fun _ => none) ⟨[], []⟩
      ("https://framerusercontent.com/images/pic.png".toList)
      ("assets/images/pic.png".toList) (by decide)

-- ## Filesystem lookup lemmas

theorem find?_filter_of_imp {α : Type} (p q : α → Bool) (l : List α)
    (h : ∀ x, p x = true → q x = true) :
    (l.filter q).find? p = l.find? p := by
  induction l with
  | nil => rfl
  | cons a t ih =>
    by_cases hq : q a = true
    · rw [List.filter_cons_of_pos hq]
      by_cases hp : p a = true
      · rw [List.find?_cons_of_pos _ hp, List.find?_cons_of_pos _ hp]
      · rw [List.find?_cons_of_neg _ hp, List.find?_cons_of_neg _ hp]
        exact ih
    · rw [List.filter_cons_of_neg (by simpa using hq)]
      have hp : ¬ p a = true := fun hpa => hq (h a hpa)
      rw [List.find?_cons_of_neg _ hp]
      exact ih

theorem FS.getFile_setFile_ne (fs : FS) (p dst c : Str) (h : p ≠ dst) :
    (fs.setFile dst c).getFile p = fs.getFile p := by
  unfold FS.setFile FS.getFile
  dsimp only
  have hd : ¬ (((dst, c) : Str × Str).1 == p) = true := by
    simp only [beq_iff_eq]
    exact fun he => h he.symm
  have hstep : List.find? (fun f => f.1 == p)
      ((dst, c) :: fs.files.filter (fun f => !(f.1 == dst)))
      = List.find? (fun f => f.1 == p) (fs.files.filter (fun f => !(f.1 == dst))) :=
    List.find?_cons_of_neg _ hd
  rw [hstep]
  rw [find?_filter_of_imp _ _ _ ?_]
  intro x hx
  simp only [beq_iff_eq] at hx
  simp [hx, h]

theorem FS.getFile_setFile_self (fs : FS) (p c : Str) :
    (fs.setFile p c).getFile p = some c := by
  unfold FS.setFile FS.getFile
  dsimp only
  rw [List.find?_cons_of_pos _ (by simp)]

theorem FS.hasFile_setFile_self (fs : FS) (p c : Str) :
    (fs.setFile p c).hasFile p = true := by
  unfold FS.setFile FS.hasFile
  simp

theorem FS.getFile_mkdirp (fs : FS) (d p : Str) :
    (fs.mkdirp d).getFile p = fs.getFile p := by
  unfold FS.mkdirp
  split
  · rfl
  · rfl

theorem FS.hasFile_mkdirp (fs : FS) (d p : Str) :
    (fs.mkdirp d).hasFile p = fs.hasFile p := by
  unfold FS.mkdirp
  split
  · rfl
  · rfl

theorem ensure_unique_path_eq (fs : FS) (d f : Str) :
    ensure_unique_path fs d f = d ++ '/' :: f := by
  unfold ensure_unique_path
  simp

-- ## mirror_download: success shape and preservation of existing files

theorem mirror_download_body_ok (net : Str → MirrorResp) (fs : FS) (url : Str)
    (only_framer : Bool) (chunks : List Str) (hurl : is_http_url url = true)
    (hof : (only_framer && !host_looks_like_framer url) = false)
    (hex : fs.hasFile
      (choose_local_dir url ++ '/' :: hashed_name_from_url url) = false)
    (hnet : net url = MirrorResp.body chunks false) :
    mirror_download net fs url only_framer =
      (some (choose_local_dir url ++ '/' :: hashed_name_from_url url),
        (fs.mkdirp (choose_local_dir url)).setFile
          (choose_local_dir url ++ '/' :: hashed_name_from_url url) chunks.flatten,
        [Effect.netget url, Effect.mkdirp (choose_local_dir url),
         Effect.fwrite (choose_local_dir url ++ '/' :: hashed_name_from_url url)
           chunks.flatten]) := by
  unfold mirror_download
  have h1 : (only_framer && is_http_url url && !host_looks_like_framer url) = false := by
    rw [hurl, Bool.and_true]
    exact hof
  rw [h1]
  simp only [Bool.false_eq_true, if_false, hurl, Bool.not_true, if_false]
  rw [ensure_unique_path_eq]
  simp [hex, hnet]

theorem mirror_download_no_overwrite (net : Str → MirrorResp) (fs : FS) (url : Str)
    (only_framer : Bool) (p : Str) (hp : fs.hasFile p = true) :
    ((mirror_download net fs url only_framer).2.1).getFile p = fs.getFile p := by
  unfold mirror_download
  split
  · rfl
  · split
    · rfl
    · dsimp only
      rw [ensure_unique_path_eq]
      split
      · rfl
      · rename_i hex
        have hne : p ≠ choose_local_dir url ++ '/' :: hashed_name_from_url url := by
          intro he
          rw [he] at hp
          exact hex (by rw [hp])
        cases hnet : net url with
        | connErr => simp [hnet]
        | statusErr => simp [hnet]
        | body chunks interrupted =>
          simp only [hnet]
          split
          · dsimp only
            rw [FS.getFile_setFile_ne _ _ _ _ hne, FS.getFile_mkdirp]
          · dsimp only
            rw [FS.getFile_setFile_ne _ _ _ _ hne, FS.getFile_mkdirp]

-- ## Claim C9

/-- Claim C9: the mirror variant never overwrites or modifies an existing
local file.  `ensure_unique_path` always returns the unchanged candidate
path (its hash-on-collision docstring is not implemented), every file
already present keeps its exact content across any `download` call, and
when two distinct URLs share a category directory and basename the second
download returns the path fetched for the first — without a network request
— so both URLs silently share the first URL's content. -/
theorem claim_C9 (net : Str → MirrorResp) (fs : FS) (u1 u2 : Str) (of : Bool)
    (chunks : List Str)
    (hsame : choose_local_dir u1 ++ '/' :: hashed_name_from_url u1
      = choose_local_dir u2 ++ '/' :: hashed_name_from_url u2)
    (hurl1 : is_http_url u1 = true) (hof1 : (of && !host_looks_like_framer u1) = false)
    (hurl2 : is_http_url u2 = true) (hof2 : (of && !host_looks_like_framer u2) = false)
    (hex : fs.hasFile (choose_local_dir u1 ++ '/' :: hashed_name_from_url u1) = false)
    (hnet : net u1 = MirrorResp.body chunks false) :
    (∀ (fs2 : FS) (d f : Str), ensure_unique_path fs2 d f = d ++ '/' :: f)
    ∧ (∀ (net2 : Str → MirrorResp) (fs2 : FS) (url : Str) (of2 : Bool) (p : Str),
        fs2.hasFile p = true →
        ((mirror_download net2 fs2 url of2).2.1).getFile p = fs2.getFile p)
    ∧ mirror_download net (mirror_download net fs u1 of).2.1 u2 of
        = (some (choose_local_dir u1 ++ '/' :: hashed_name_from_url u1),
           (mirror_download net fs u1 of).2.1, [])
    ∧ ((mirror_download net fs u1 of).2.1).getFile
        (choose_local_dir u1 ++ '/' :: hashed_name_from_url u1) = some chunks.flatten := by
  have h1 := mirror_download_body_ok net fs u1 of chunks hurl1 hof1 hex hnet
  refine ⟨ensure_unique_path_eq, mirror_download_no_overwrite, ?_, ?_⟩
  · have hfs1 : (mirror_download net fs u1 of).2.1
        = (fs.mkdirp (choose_local_dir u1)).setFile
          (choose_local_dir u1 ++ '/' :: hashed_name_from_url u1) chunks.flatten := by
      rw [h1]
    have hhas : ((mirror_download net fs u1 of).2.1).hasFile
        (ensure_unique_path (mirror_download net fs u1 of).2.1
          (choose_local_dir u2) (hashed_name_from_url u2)) = true := by
      rw [ensure_unique_path_eq, ← hsame, hfs1]
      exact FS.hasFile_setFile_self _ _ _
    have h2 := mirror_download_cached net (mirror_download net fs u1 of).2.1 u2 of
      hurl2 hof2 hhas
    rw [h2, ensure_unique_path_eq, ← hsame]
  · rw [h1]
    dsimp only
    exact FS.getFile_setFile_self _ _ _

/-- Witness for claim C9: two URLs differing only in query string share the
path basename `pic.png`; after the first is fetched, downloading the second
returns the first's file and its content. -/
theorem claim_C9_witness :
    mirror_download
      (fun u => if u == "https://framerusercontent.com/images/pic.png?v=1".toList
        then MirrorResp.body ["AAA".toList] false else MirrorResp.body ["BBB".toList] false)
      (mirror_download
        (fun u => if u == "https://framerusercontent.com/images/pic.png?v=1".toList
          then MirrorResp.body ["AAA".toList] false else MirrorResp.body ["BBB".toList] false)
        ⟨[], []⟩ ("https://framerusercontent.com/images/pic.png?v=1".toList) false).2.1
      ("https://framerusercontent.com/images/pic.png?v=2".toList) false
      = (some (choose_local_dir ("https://framerusercontent.com/images/pic.png?v=1".toList)
          ++ '/' :: hashed_name_from_url
            ("https://framerusercontent.com/images/pic.png?v=1".toList)),
         (mirror_download
          (fun u => if u == "https://framerusercontent.com/images/pic.png?v=1".toList
            then MirrorResp.body ["AAA".toList] false else MirrorResp.body ["BBB".toList] false)
          ⟨[], []⟩ ("https://framerusercontent.com/images/pic.png?v=1".toList) false).2.1, []) :=
  (claim_C9
    (fun u => if u == "https://framerusercontent.com/images/pic.png?v=1".toList
      then MirrorResp.body ["AAA".toList] false else MirrorResp.body ["BBB".toList] false)
    ⟨[], []⟩ ("https://framerusercontent.com/images/pic.png?v=1".toList)
    ("https://framerusercontent.com/images/pic.png?v=2".toList) false ["AAA".toList]
    (by decide) (by decide) (by decide) (by decide) (by decide) (by decide)
    (by decide)).2.2.1

-- ## Claim C10

theorem subFirstCI_none {pat s : Str} (h : findCI pat s = none) :
    ∀ repl, subFirstCI pat repl s = s := by
  intro repl
  unfold subFirstCI
  rw [h]

theorem ensure_framer_tags_model_changed (html : Str) :
    (ensure_framer_tags_model html).1 = true ↔
      (CSS_TAG_SEARCH html = false ∨ EVT_TAG_SEARCH html = false
        ∨ MAIN_TAG_SEARCH html = false) := by
  unfold ensure_framer_tags_model
  dsimp only
  by_cases hc : CSS_TAG_SEARCH html = true
  · have hc1 : ensureCssText html = html := by
      unfold ensureCssText
      rw [if_pos hc]
    rw [hc1, hc]
    by_cases he : EVT_TAG_SEARCH html = true
    · have he1 : ensureEvtText html = html := by
        unfold ensureEvtText
        rw [if_pos he]
      rw [he1, he]
      by_cases hm : MAIN_TAG_SEARCH html = true
      · simp [hc, he, hm]
      · have hm2 : MAIN_TAG_SEARCH html = false := Bool.eq_false_iff.mpr hm
        simp [hm2]
    · have he2 : EVT_TAG_SEARCH html = false := Bool.eq_false_iff.mpr he
      simp [he2]
  · have hc2 : CSS_TAG_SEARCH html = false := Bool.eq_false_iff.mpr hc
    simp [hc2]

/-- Claim C10: `ensure_framer_tags` reports a change (and rewrites the file)
exactly when one of the three tag patterns is absent from the input HTML —
even when the HTML has no closing head or body tag to insert at, in which
case the file is rewritten with content identical to the input. -/
theorem claim_C10 (fs : FS) (fpath html : Str) :
    ((ensure_framer_tags fs fpath html).1 = true ↔
      (CSS_TAG_SEARCH html = false ∨ EVT_TAG_SEARCH html = false
        ∨ MAIN_TAG_SEARCH html = false))
    ∧ ((ensure_framer_tags fs fpath html).1 = false →
        ensure_framer_tags fs fpath html = (false, fs, []))
    ∧ (findCI ("</head>".toList) html = none →
       findCI ("</body>".toList) html = none →
        (ensure_framer_tags_model html).2 = html
        ∧ (CSS_TAG_SEARCH html = false →
            (ensure_framer_tags fs fpath html).1 = true
            ∧ (ensure_framer_tags fs fpath html).2.1.getFile fpath = some html
            ∧ (ensure_framer_tags fs fpath html).2.2
              = [Effect.fwrite fpath html,
                 Effect.out ("EnsureTags: fixed -> ".toList ++ fpath)])) := by
  have hch := ensure_framer_tags_model_changed html
  refine ⟨?_, ?_, ?_⟩
  · have : (ensure_framer_tags fs fpath html).1 = (ensure_framer_tags_model html).1 := by
      unfold ensure_framer_tags
      dsimp only
      split
      · rename_i h
        rw [h]
      · rename_i h
        exact (Bool.eq_false_iff.mpr h).symm
    rw [this]
    exact hch
  · intro hfalse
    unfold ensure_framer_tags at hfalse ⊢
    dsimp only at hfalse ⊢
    split at hfalse
    · simp at hfalse
    · rename_i h
      rw [if_neg h]
  · intro hh hb
    have hid : (ensure_framer_tags_model html).2 = html := by
      unfold ensure_framer_tags_model
      dsimp only
      have h1 : ensureCssText html = html := by
        unfold ensureCssText
        split
        · rfl
        · exact subFirstCI_none hh cssInject
      rw [h1]
      have h2 : ensureEvtText html = html := by
        unfold ensureEvtText
        split
        · rfl
        · exact subFirstCI_none hb evtInject
      rw [h2]
      unfold ensureMainText
      split
      · rfl
      · exact subFirstCI_none hb mainInject
    refine ⟨hid, ?_⟩
    intro hcss
    have hc1 : (ensure_framer_tags_model html).1 = true :=
      hch.mpr (Or.inl hcss)
    unfold ensure_framer_tags
    dsimp only
    rw [if_pos hc1, hid]
    exact ⟨rfl, FS.getFile_setFile_self fs fpath html, rfl⟩

/-- Witness for claim C10: an HTML fragment with no head or body closing
tags and no framer tags is reported changed and rewritten unmodified. -/
theorem claim_C10_witness :
    ((ensure_framer_tags ⟨[], []⟩ ("page.html".toList) ("<p>hi</p>".toList)).1 = true
      ∧ (ensure_framer_tags ⟨[], []⟩ ("page.html".toList)
          ("<p>hi</p>".toList)).2.1.getFile ("page.html".toList)
        = some ("<p>hi</p>".toList)) := by
  have h := claim_C10 ⟨[], []⟩ ("page.html".toList) ("<p>hi</p>".toList)
  have h2 := h.2.2 (by decide) (by decide)
  have h3 := h2.2 (by decide)
  exact ⟨h3.1, h3.2.1⟩

-- ## Matching the injected tags

theorem litCI_of_matches :
    ∀ (lit pre : Str), litMatches lit pre = true → ∀ y, litCI lit (pre ++ y) = some y := by
  intro lit
  induction lit with
  | nil =>
    intro pre h y
    cases pre with
    | nil => rfl
    | cons c cs => simp [litMatches] at h
  | cons a as ih =>
    intro pre h y
    cases pre with
    | nil => simp [litMatches] at h
    | cons c cs =>
      unfold litMatches at h
      rw [Bool.and_eq_true] at h
      have hc : c.toLower = a := by
        have := h.1
        simpa using this
      show litCI (a :: as) (c :: (cs ++ y)) = some y
      unfold litCI
      rw [if_pos hc]
      exact ih cs h.2 y

theorem litCIThen_append (lit pre : Str) (h : litMatches lit pre = true)
    (f : Str → Bool) (y : Str) (hf : f y = true) :
    litCIThen lit f (pre ++ y) = true := by
  unfold litCIThen
  rw [litCI_of_matches lit pre h y]
  exact hf

theorem quoteThen_dq (f : Str → Bool) (t : Str) (hf : f t = true) :
    quoteThen f ('"' :: t) = true := by
  unfold quoteThen
  simp [hf]

theorem gapThen_of_split (f : Str → Bool) :
    ∀ (g rest : Str), g ≠ [] → (∀ c ∈ g, ¬ c = '>') → f rest = true →
      gapThen f (g ++ rest) = true := by
  intro g
  induction g with
  | nil =>
    intro rest hne
    exact absurd rfl hne
  | cons c g2 ih =>
    intro rest _ hgt hf
    show gapThen f (c :: (g2 ++ rest)) = true
    unfold gapThen
    rw [if_neg (hgt c (List.mem_cons_self c g2))]
    cases g2 with
    | nil =>
      simp only [List.nil_append]
      rw [hf]
      simp
    | cons d g3 =>
      have hrec := ih rest (by simp) (fun x hx => hgt x (List.mem_cons_of_mem c hx)) hf
      rw [hrec]
      simp

theorem searchBool_of_append (here : Str → Bool) :
    ∀ (x z : Str), here z = true → searchBool here (x ++ z) = true := by
  intro x
  induction x with
  | nil =>
    intro z hz
    cases z with
    | nil => simpa using hz
    | cons c t =>
      show searchBool here (c :: t) = true
      unfold searchBool
      rw [hz]
      simp
  | cons c t ih =>
    intro z hz
    show searchBool here (c :: (t ++ z)) = true
    unfold searchBool
    rw [ih z hz]
    simp

theorem cssTagHere_lit (y : Str) :
    cssTagHere (("<link rel=\"stylesheet\" href=\"assets/css/framer.css\"").toList ++ y)
      = true := by
  have hdec : ("<link rel=\"stylesheet\" href=\"assets/css/framer.css\"").toList ++ y
      = ("<link").toList ++ ((" rel=\"stylesheet\" ").toList
        ++ (("href=").toList ++ ('"' :: (("assets/css/framer.css").toList ++ ('"' :: y))))) :=
    rfl
  rw [hdec]
  unfold cssTagHere
  apply litCIThen_append _ _ (by decide)
  apply gapThen_of_split _ _ _ (by decide) (by decide)
  apply litCIThen_append _ _ (by decide)
  apply quoteThen_dq
  apply litCIThen_append _ _ (by decide)
  apply quoteThen_dq
  rfl

theorem evtTagHere_lit (y : Str) :
    evtTagHere (("<script src=\"assets/js/framer/events-script-v2.js\"").toList ++ y)
      = true := by
  have hdec : ("<script src=\"assets/js/framer/events-script-v2.js\"").toList ++ y
      = ("<script").toList ++ ((" ").toList
        ++ (("src=").toList ++ ('"' :: (("assets/js/framer/events-script-v2.js").toList
          ++ ('"' :: y))))) := rfl
  rw [hdec]
  unfold evtTagHere
  apply litCIThen_append _ _ (by decide)
  apply gapThen_of_split _ _ _ (by decide) (by decide)
  apply litCIThen_append _ _ (by decide)
  apply quoteThen_dq
  apply litCIThen_append _ _ (by decide)
  apply quoteThen_dq
  rfl

theorem mainTagHere_lit (y : Str) :
    mainTagHere
      (("<script type=\"module\" src=\"assets/js/framer/script_main.Bw_SFk1g.mjs\"").toList
        ++ y) = true := by
  have hdec :
      ("<script type=\"module\" src=\"assets/js/framer/script_main.Bw_SFk1g.mjs\"").toList ++ y
      = ("<script").toList ++ ((" ").toList
        ++ (("type=").toList ++ ('"' :: (("module").toList
          ++ ('"' :: ((" ").toList ++ (("src=").toList
            ++ ('"' :: (("assets/js/framer/script_main.Bw_SFk1g.mjs").toList
              ++ ('"' :: y)))))))))) := rfl
  rw [hdec]
  unfold mainTagHere
  apply litCIThen_append _ _ (by decide)
  apply gapThen_of_split _ _ _ (by decide) (by decide)
  apply litCIThen_append _ _ (by decide)
  apply quoteThen_dq
  apply litCIThen_append _ _ (by decide)
  apply quoteThen_dq
  apply gapThen_of_split _ _ _ (by decide) (by decide)
  apply litCIThen_append _ _ (by decide)
  apply quoteThen_dq
  apply litCIThen_append _ _ (by decide)
  apply quoteThen_dq
  rfl

theorem css_present_in_inject (x y : Str) :
    CSS_TAG_SEARCH (x ++ (cssInject ++ y)) = true := by
  have hdec : x ++ (cssInject ++ y)
      = (x ++ ("  ").toList)
        ++ (("<link rel=\"stylesheet\" href=\"assets/css/framer.css\"").toList
          ++ ((">\n</head>").toList ++ y)) := by
    have h1 : cssInject ++ y
        = ("  ").toList
          ++ (("<link rel=\"stylesheet\" href=\"assets/css/framer.css\"").toList
            ++ ((">\n</head>").toList ++ y)) := rfl
    rw [h1]
    simp
  rw [hdec]
  exact searchBool_of_append _ _ _ (cssTagHere_lit _)

theorem evt_present_in_inject (x y : Str) :
    EVT_TAG_SEARCH (x ++ (evtInjectPre ++ y)) = true := by
  have hdec : x ++ (evtInjectPre ++ y)
      = (x ++ ("  ").toList)
        ++ (("<script src=\"assets/js/framer/events-script-v2.js\"").toList
          ++ (("></script>\n").toList ++ y)) := by
    have h1 : evtInjectPre ++ y
        = ("  ").toList
          ++ (("<script src=\"assets/js/framer/events-script-v2.js\"").toList
            ++ (("></script>\n").toList ++ y)) := rfl
    rw [h1]
    simp
  rw [hdec]
  exact searchBool_of_append _ _ _ (evtTagHere_lit _)

theorem main_present_in_inject (x y : Str) :
    MAIN_TAG_SEARCH (x ++ (mainInject ++ y)) = true := by
  have hdec : x ++ (mainInject ++ y)
      = (x ++ ("  ").toList)
        ++ (("<script type=\"module\" src=\"assets/js/framer/script_main.Bw_SFk1g.mjs\"").toList
          ++ (("></script>\n</body>").toList ++ y)) := by
    have h1 : mainInject ++ y
        = ("  ").toList
          ++ (("<script type=\"module\" src=\"assets/js/framer/script_main.Bw_SFk1g.mjs\"").toList
            ++ (("></script>\n</body>").toList ++ y)) := rfl
    rw [h1]
    simp
  rw [hdec]
  exact searchBool_of_append _ _ _ (mainTagHere_lit _)

theorem subFirstCI_at (pat repl : Str) {s a z : Str} (hs : s = a ++ (pat ++ z))
    (hf : findCI pat s = some a.length) :
    subFirstCI pat repl s = a ++ (repl ++ z) := by
  unfold subFirstCI
  rw [hf]
  subst hs
  dsimp only
  have ht : (a ++ (pat ++ z)).take a.length = a := List.take_left' rfl
  have hd : (a ++ (pat ++ z)).drop (a.length + pat.length) = z := by
    rw [show a ++ (pat ++ z) = (a ++ pat) ++ z from by simp]
    exact List.drop_left' (by simp)
  rw [ht, hd]
  simp

-- ## Claim C6

/-- Claim C6: each of the three tags is injected only when its pattern is
absent; on a document whose first closing head tag and closing body tag
stand where the hypotheses place them and which lacks all three tags, the
stylesheet link is injected exactly once immediately before the closing
head tag, the two script tags land before the closing body tag, and
applying the ensurer to its own output changes nothing. -/
theorem claim_C6 (html a b1 b2 : Str)
    (hsplit : html = a ++ ("</head>".toList) ++ b1 ++ ("</body>".toList) ++ b2)
    (hcss : CSS_TAG_SEARCH html = false)
    (hfhead : findCI ("</head>".toList) html = some a.length)
    (hevt1 : EVT_TAG_SEARCH (a ++ cssInject ++ b1 ++ ("</body>".toList) ++ b2) = false)
    (hfbody1 : findCI ("</body>".toList)
      (a ++ cssInject ++ b1 ++ ("</body>".toList) ++ b2)
      = some (a.length + cssInject.length + b1.length))
    (hmain2 : MAIN_TAG_SEARCH
      (a ++ cssInject ++ b1 ++ evtInjectPre ++ ("</body>".toList) ++ b2) = false)
    (hfbody2 : findCI ("</body>".toList)
      (a ++ cssInject ++ b1 ++ evtInjectPre ++ ("</body>".toList) ++ b2)
      = some (a.length + cssInject.length + b1.length + evtInjectPre.length)) :
    (∀ s, CSS_TAG_SEARCH s = true → ensureCssText s = s)
    ∧ (∀ s, EVT_TAG_SEARCH s = true → ensureEvtText s = s)
    ∧ (∀ s, MAIN_TAG_SEARCH s = true → ensureMainText s = s)
    ∧ ensureCssText html = a ++ cssInject ++ b1 ++ ("</body>".toList) ++ b2
    ∧ ensureTagsText html = a ++ cssInject ++ b1 ++ evtInjectPre ++ mainInject ++ b2
    ∧ ensureTagsText (ensureTagsText html) = ensureTagsText html := by
  have hid1 : ∀ s, CSS_TAG_SEARCH s = true → ensureCssText s = s := by
    intro s hs
    unfold ensureCssText
    rw [if_pos hs]
  have hid2 : ∀ s, EVT_TAG_SEARCH s = true → ensureEvtText s = s := by
    intro s hs
    unfold ensureEvtText
    rw [if_pos hs]
  have hid3 : ∀ s, MAIN_TAG_SEARCH s = true → ensureMainText s = s := by
    intro s hs
    unfold ensureMainText
    rw [if_pos hs]
  -- stage 1: the stylesheet link goes in before the first closing head tag
  have hcss2 : ¬ (CSS_TAG_SEARCH html = true) := by
    rw [hcss]
    simp
  have hs1 : html = a ++ (("</head>".toList) ++ (b1 ++ (("</body>".toList) ++ b2))) := by
    rw [hsplit]
    simp
  have hhtml1 : ensureCssText html = a ++ cssInject ++ b1 ++ ("</body>".toList) ++ b2 := by
    unfold ensureCssText
    rw [if_neg hcss2]
    rw [subFirstCI_at ("</head>".toList) cssInject hs1 hfhead]
    simp
  -- stage 2: the events script goes in before the first closing body tag
  have hevt2 : ¬ (EVT_TAG_SEARCH (ensureCssText html) = true) := by
    rw [hhtml1, hevt1]
    simp
  have hs2 : ensureCssText html
      = (a ++ cssInject ++ b1) ++ (("</body>".toList) ++ b2) := by
    rw [hhtml1]
    simp
  have hf2 : findCI ("</body>".toList) (ensureCssText html)
      = some (a ++ cssInject ++ b1).length := by
    rw [hhtml1]
    rw [show (a ++ cssInject ++ b1).length
      = a.length + cssInject.length + b1.length from by simp only [List.length_append]]
    exact hfbody1
  have hhtml2 : ensureEvtText (ensureCssText html)
      = a ++ cssInject ++ b1 ++ evtInjectPre ++ ("</body>".toList) ++ b2 := by
    unfold ensureEvtText
    rw [if_neg hevt2]
    rw [subFirstCI_at ("</body>".toList) evtInject hs2 hf2]
    unfold evtInject
    simp
  -- stage 3: the module script goes in before the re-emitted closing body tag
  have hmain3 : ¬ (MAIN_TAG_SEARCH (ensureEvtText (ensureCssText html)) = true) := by
    rw [hhtml2, hmain2]
    simp
  have hs3 : ensureEvtText (ensureCssText html)
      = (a ++ cssInject ++ b1 ++ evtInjectPre) ++ (("</body>".toList) ++ b2) := by
    rw [hhtml2]
    simp
  have hf3 : findCI ("</body>".toList) (ensureEvtText (ensureCssText html))
      = some (a ++ cssInject ++ b1 ++ evtInjectPre).length := by
    rw [hhtml2]
    rw [show (a ++ cssInject ++ b1 ++ evtInjectPre).length
      = a.length + cssInject.length + b1.length + evtInjectPre.length
      from by simp only [List.length_append]]
    exact hfbody2
  have hhtml3 : ensureTagsText html
      = a ++ cssInject ++ b1 ++ evtInjectPre ++ mainInject ++ b2 := by
    unfold ensureTagsText
    unfold ensureMainText
    rw [if_neg hmain3]
    rw [subFirstCI_at ("</body>".toList) mainInject hs3 hf3]
    unfold mainInject
    simp
  -- the output carries all three tags, so a second pass is the identity
  have hcss3 : CSS_TAG_SEARCH
      (a ++ cssInject ++ b1 ++ evtInjectPre ++ mainInject ++ b2) = true := by
    rw [show a ++ cssInject ++ b1 ++ evtInjectPre ++ mainInject ++ b2
      = a ++ (cssInject ++ (b1 ++ (evtInjectPre ++ (mainInject ++ b2)))) from by simp]
    exact css_present_in_inject _ _
  have hevt3 : EVT_TAG_SEARCH
      (a ++ cssInject ++ b1 ++ evtInjectPre ++ mainInject ++ b2) = true := by
    rw [show a ++ cssInject ++ b1 ++ evtInjectPre ++ mainInject ++ b2
      = (a ++ cssInject ++ b1) ++ (evtInjectPre ++ (mainInject ++ b2)) from by simp]
    exact evt_present_in_inject _ _
  have hmain4 : MAIN_TAG_SEARCH
      (a ++ cssInject ++ b1 ++ evtInjectPre ++ mainInject ++ b2) = true := by
    rw [show a ++ cssInject ++ b1 ++ evtInjectPre ++ mainInject ++ b2
      = (a ++ cssInject ++ b1 ++ evtInjectPre) ++ (mainInject ++ b2) from by simp]
    exact main_present_in_inject _ _
  refine ⟨hid1, hid2, hid3, hhtml1, hhtml3, ?_⟩
  rw [hhtml3]
  unfold ensureTagsText
  rw [hid1 _ hcss3, hid2 _ hevt3, hid3 _ hmain4]

/-- Witness for claim C6 on a minimal HTML document missing all three
tags. -/
theorem claim_C6_witness :
    ensureCssText ("<html><head></head><body></body></html>".toList)
      = ("<html><head>".toList) ++ cssInject ++ ("<body>".toList)
        ++ ("</body>".toList) ++ ("</html>".toList)
    ∧ ensureTagsText (ensureTagsText ("<html><head></head><body></body></html>".toList))
      = ensureTagsText ("<html><head></head><body></body></html>".toList) := by
  have h := claim_C6 ("<html><head></head><body></body></html>".toList)
    ("<html><head>".toList) ("<body>".toList) ("</html>".toList)
    (by decide) (by decide) (by decide) (by decide) (by decide) (by decide) (by decide)
  exact ⟨h.2.2.2.1, h.2.2.2.2.2⟩

-- ## Claim C7

/-- Claim C7 counterexample.  The claim says exactly those href paths that,
after stripping leading and trailing slashes, have no extension and no
remaining slashes are rewritten.  But the code strips dots as well as
slashes from both ends before testing for a dot: the path `About.` still
contains a dot after stripping slashes — by the claim it has an extension
and must be left unchanged — yet the code strips the trailing dot, finds
`About` in the link map, and rewrites the attribute. -/
theorem claim_C7_counterexample :
    stripChars ("/".toList) ("About.".toList) = "About.".toList
    ∧ '.' ∈ ("About.".toList)
    ∧ rewriteLinks (build_link_map ["About.html".toList])
        ("<a href=\"About.\">x</a>".toList)
      = ("<a href=\"About.html\">x</a>".toList) := by
  refine ⟨by decide, by decide, by decide⟩

/-- Claim C7 as amended: an href attribute is rewritten exactly when its
path — after stripping surrounding whitespace and then leading and trailing
dots and slashes — is nonempty, contains no dot anywhere, and has a link-map
entry, preferring the exact-case entry and falling back to the lower-cased
one, always preserving the captured query group; every other attribute is
reproduced unchanged.  When no key of the link map contains a slash (as in
maps built from root-level HTML file names), a path with an interior slash
is never rewritten. -/
theorem claim_C7_amended (link_map : List (Str × Str)) (href q : Str) :
    ((linkTarget href = [] ∨ '.' ∈ linkTarget href) →
      repl_link link_map href q = ("href=".toList ++ '"' :: href) ++ q ++ ['"'])
    ∧ (¬(linkTarget href = [] ∨ '.' ∈ linkTarget href) →
      ∀ v, link_map.lookup (linkTarget href) = some v →
        repl_link link_map href q = ("href=".toList ++ '"' :: v) ++ q ++ ['"'])
    ∧ (¬(linkTarget href = [] ∨ '.' ∈ linkTarget href) →
      link_map.lookup (linkTarget href) = none →
      ∀ v, link_map.lookup (lowerStr (linkTarget href)) = some v →
        repl_link link_map href q = ("href=".toList ++ '"' :: v) ++ q ++ ['"'])
    ∧ (¬(linkTarget href = [] ∨ '.' ∈ linkTarget href) →
      link_map.lookup (linkTarget href) = none →
      link_map.lookup (lowerStr (linkTarget href)) = none →
      repl_link link_map href q = ("href=".toList ++ '"' :: href) ++ q ++ ['"'])
    ∧ ((∀ p ∈ link_map, '/' ∉ p.1) → '/' ∈ linkTarget href →
      repl_link link_map href q = ("href=".toList ++ '"' :: href) ++ q ++ ['"']) := by
  have hkey_none : (∀ p ∈ link_map, '/' ∉ p.1) → ∀ k : Str, '/' ∈ k →
      link_map.lookup k = none := by
    intro hkeys k hk
    cases hl : link_map.lookup k with
    | none => rfl
    | some v =>
      exfalso
      rcases List.lookup_eq_some_iff.mp hl with ⟨l1, l2, heq, _⟩
      have hmem : (k, v) ∈ link_map := by
        rw [heq]
        simp
      exact hkeys (k, v) hmem hk
  refine ⟨?_, ?_, ?_, ?_, ?_⟩
  · intro h
    unfold repl_link
    rw [if_pos h]
  · intro h v hv
    unfold repl_link
    rw [if_neg h, hv]
  · intro h h1 v hv
    unfold repl_link
    rw [if_neg h, h1, hv]
  · intro h h1 h2
    unfold repl_link
    rw [if_neg h, h1, h2]
  · intro hkeys hslash
    have hlow : '/' ∈ lowerStr (linkTarget href) := by
      unfold lowerStr
      exact List.mem_map.mpr ⟨'/', hslash, by decide⟩
    by_cases h : (linkTarget href = [] ∨ '.' ∈ linkTarget href)
    · unfold repl_link
      rw [if_pos h]
    · unfold repl_link
      rw [if_neg h, hkey_none hkeys _ hslash, hkey_none hkeys _ hlow]

/-- Witness for the amended claim C7: an exact-case hit rewrites the path
and keeps the query; a dotted path is reproduced unchanged. -/
theorem claim_C7_amended_witness :
    repl_link (build_link_map ["About.html".toList]) ("/About".toList) ("?x=1".toList)
      = ("href=".toList ++ '"' :: ("About.html".toList)) ++ ("?x=1".toList) ++ ['"']
    ∧ repl_link (build_link_map ["About.html".toList]) ("x.html".toList) []
      = ("href=".toList ++ '"' :: ("x.html".toList)) ++ ([] : Str) ++ ['"'] := by
  constructor
  · exact (claim_C7_amended (build_link_map ["About.html".toList])
      ("/About".toList) ("?x=1".toList)).2.1 (by decide) ("About.html".toList) (by decide)
  · exact (claim_C7_amended (build_link_map ["About.html".toList])
      ("x.html".toList) []).1 (by decide)
